import Mathlib

/-!
Verification of the keyword-tokenizer lexical pipeline.

Shallow embedding of the core components of the repository:
script segmenter, span phrase extractor (trie), phrase merger,
Japanese compound merger, enhanced tagger, preset reconciliation and
batch processing.  Confidences are rationals; Python strings are Lean
strings or lists of characters; Python dicts are association lists.

Python character predicates (str.isspace, str.isdigit, str.isalpha,
unicodedata.category) consult the Unicode tables; they are modelled
below on the character ranges this code base exercises (ASCII, Latin-1,
CJK, kana, fullwidth forms); characters outside the modelled ranges are
classified as their ASCII-range behaviour dictates.
-/

namespace KT

/-- Model of Python str.lower on a single character: ASCII A-Z and
fullwidth A-Z are lowered, every other character is unchanged. -/
def pyLowerChar (c : Char) : Char :=
  if 'A' ≤ c ∧ c ≤ 'Z' then Char.ofNat (c.toNat + 32)
  else if 0xFF21 ≤ c.toNat ∧ c.toNat ≤ 0xFF3A then Char.ofNat (c.toNat + 32)
  else c

/-- Model of Python str.lower on a string. -/
def pyLower (s : String) : String := String.mk (s.data.map pyLowerChar)

/-- Model of Python str.isspace for one character (ASCII whitespace,
NBSP, ideographic space). -/
def pyIsSpaceChar (c : Char) : Bool :=
  c = ' ' ∨ c = '\t' ∨ c = '\n' ∨ c = '\r' ∨ c.toNat = 0x0B ∨ c.toNat = 0x0C ∨
  c.toNat = 0xA0 ∨ c.toNat = 0x3000

/-- Model of Python str.isdigit for one character (ASCII and fullwidth
decimal digits). -/
def pyIsDigitChar (c : Char) : Bool :=
  ('0' ≤ c ∧ c ≤ '9') ∨ (0xFF10 ≤ c.toNat ∧ c.toNat ≤ 0xFF19)

/-- ASCII letter. -/
def isAsciiLetter (c : Char) : Bool :=
  ('a' ≤ c ∧ c ≤ 'z') ∨ ('A' ≤ c ∧ c ≤ 'Z')

/-- Model of Python c.isascii() and c.isalnum() conjoined: an ASCII
alphanumeric character. -/
def pyIsAsciiAlnum (c : Char) : Bool :=
  c.toNat < 128 ∧ (pyIsDigitChar c ∨ isAsciiLetter c)

/-- Model of unicodedata.category(c).startswith "P" on the exercised
ranges: ASCII punctuation of category P (note: dollar, plus, angle
brackets, equals, caret, backquote, bar, tilde are category S and are
NOT punctuation), plus common CJK/fullwidth punctuation. -/
def pyIsPunctChar (c : Char) : Bool :=
  c ∈ ['!', '"', '#', '%', '&', '\'', '(', ')', '*', ',', '-', '.', '/',
       ':', ';', '?', '@', '[', '\\', ']', '_', '{', '}'] ∨
  c.toNat ∈ [0x3001, 0x3002, 0xFF01, 0xFF08, 0xFF09, 0xFF0C, 0xFF1A,
             0xFF1B, 0xFF1F, 0x00B7, 0x2018, 0x2019, 0x201C, 0x201D,
             0x2026, 0x2014]

/-- Model of Python str.isupper for one character (ASCII). -/
def pyIsUpperChar (c : Char) : Bool := 'A' ≤ c ∧ c ≤ 'Z'

/-- Model of Python c.isalpha() on the exercised ranges: ASCII and
Latin-1 letters, CJK ideographs, kana, hangul are alphabetic. -/
def pyIsAlphaChar (c : Char) : Bool :=
  isAsciiLetter c ∨
  (0xC0 ≤ c.toNat ∧ c.toNat ≤ 0xFF ∧ c.toNat ≠ 0xD7 ∧ c.toNat ≠ 0xF7) ∨
  (0x100 ≤ c.toNat ∧ c.toNat ≤ 0x24F) ∨
  (0x3040 ≤ c.toNat ∧ c.toNat ≤ 0x30FF) ∨
  (0x4E00 ≤ c.toNat ∧ c.toNat ≤ 0x9FFF) ∨
  (0xAC00 ≤ c.toNat ∧ c.toNat ≤ 0xD7AF)

/-- Model of Python str.isalpha on a string: nonempty and every
character alphabetic. -/
def pyIsAlphaStr (s : String) : Bool :=
  ¬ s.data.isEmpty ∧ s.data.all pyIsAlphaChar

/-- Model of Python str.strip: drop leading and trailing whitespace. -/
def pyStrip (l : List Char) : List Char :=
  ((l.dropWhile pyIsSpaceChar).reverse.dropWhile pyIsSpaceChar).reverse

/-- Truthiness of text.strip() in Python: nonempty after stripping. -/
def pyStripTruthy (l : List Char) : Bool := ¬ (pyStrip l).isEmpty

/-- Python lexicographic string comparison (by code point), used by
the tuple-ordering in are_tags_compatible. -/
def pyStrLtChars : List Char → List Char → Bool
  | [], [] => false
  | [], _ :: _ => true
  | _ :: _, [] => false
  | a :: as, b :: bs =>
    if a.toNat < b.toNat then true
    else if b.toNat < a.toNat then false
    else pyStrLtChars as bs

/-- Python s1 < s2 on strings. -/
def pyStrLt (a b : String) : Bool := pyStrLtChars a.data b.data

/-- tokens[i:j] slicing on lists (Python slice with start i, stop j). -/
def pySlice {α : Type} (l : List α) (i j : Nat) : List α :=
  (l.drop i).take (j - i)

/-- Stable insertion of an element into a list already sorted by the
boolean relation le: x is placed before the first y with le x y. -/
def insertSorted {α : Type} (le : α → α → Bool) (x : α) : List α → List α
  | [] => [x]
  | y :: ys => if le x y then x :: y :: ys else y :: insertSorted le x ys

/-- Stable sort (models Python list.sort with a key): equal keys keep
their original relative order. -/
def stableSort {α : Type} (le : α → α → Bool) (l : List α) : List α :=
  l.foldr (insertSorted le) []

/-- Association-list lookup (Python dict lookup; first match wins, and
insertion prepends, so the most recent binding is found). -/
def alookup {κ α : Type} [DecidableEq κ] (k : κ) : List (κ × α) → Option α
  | [] => none
  | (k', v) :: rest => if k' = k then some v else alookup k rest

/-- Exact rational numbers as numerator/denominator pairs (denominator
positive in every constructed value), modelling the confidence scores:
all the decimal literals and arithmetic of the source are exact, and
the pair representation keeps every operation kernel-computable. -/
structure Frac where
  num : Int
  den : Nat
deriving DecidableEq

/-- Comparison a ≤ b by cross multiplication. -/
def Frac.le (a b : Frac) : Bool := a.num * (b.den : Int) ≤ b.num * (a.den : Int)

/-- Comparison a < b by cross multiplication. -/
def Frac.lt (a b : Frac) : Bool := a.num * (b.den : Int) < b.num * (a.den : Int)

/-- Exact product. -/
def Frac.mul (a b : Frac) : Frac := ⟨a.num * b.num, a.den * b.den⟩

/-- Exact sum. -/
def Frac.add (a b : Frac) : Frac :=
  ⟨a.num * (b.den : Int) + b.num * (a.den : Int), a.den * b.den⟩

/-- Python max(a, b): b when b is strictly greater, else a. -/
def pyMax (a b : Frac) : Frac := if Frac.lt a b then b else a

/-- Python min(a, b). -/
def pyMin (a b : Frac) : Frac := if Frac.lt b a then b else a

/-- The float zero. -/
def Frac.zero : Frac := ⟨0, 1⟩

/-- Python v != 0.0 (semantic, valid for positive denominators). -/
def Frac.nonzero (a : Frac) : Bool := a.num ≠ 0

/-! ## Phrase merger (src/core/phrase_merger.py) -/

/-- MergedToken dataclass. -/
structure MergedToken where
  text : String
  original_tokens : List String
  start_idx : Nat
  end_idx : Nat
  is_merged : Bool
  suggested_tag : Option String := none
  confidence : Frac := ⟨0, 1⟩
deriving DecidableEq

/-- PhraseMerger state: the phrase table keyed by lower-cased token
tuples (association list, latest binding first) and the cached maximal
phrase length (initialised to 1 in the source). -/
structure PhraseMerger where
  phrases : List (List String × (String × Frac))
  max_phrase_len : Nat
deriving DecidableEq

/-- An empty merger before any add_phrase call (max_phrase_len = 1). -/
def PhraseMerger.empty : PhraseMerger := ⟨[], 1⟩

/-- PhraseMerger.add_phrase: normalise the key to lower case, store the
(tag, confidence) value, and bump max_phrase_len. -/
def PhraseMerger.add_phrase (m : PhraseMerger) (tokens : List String)
    (tag : String) (confidence : Frac) : PhraseMerger :=
  let normalized := tokens.map pyLower
  { phrases := (normalized, (tag, confidence)) :: m.phrases
    max_phrase_len :=
      if m.max_phrase_len < normalized.length then normalized.length
      else m.max_phrase_len }

/-- Build a merger from a list of (key, tag, confidence) additions. -/
def PhraseMerger.ofList (entries : List (List String × String × Frac)) : PhraseMerger :=
  entries.foldl (fun m e => m.add_phrase e.1 e.2.1 e.2.2) PhraseMerger.empty

/-- The inner for-loop of PhraseMerger.merge: try candidate phrase
lengths k, k-1, ..., 1 and return the first (longest) length whose
lower-cased token tuple is in the phrase table, with its table entry. -/
def tryPhraseLens (m : PhraseMerger) (tokens : List String) (i : Nat) :
    Nat → Option (Nat × String × Frac)
  | 0 => none
  | l + 1 =>
    let candidate := (pySlice tokens i (i + (l + 1))).map pyLower
    match alookup candidate m.phrases with
    | some (tag, conf) => some (l + 1, tag, conf)
    | none => tryPhraseLens m tokens i l

/-- The while-loop of PhraseMerger.merge; fuel bounds the number of
iterations (each iteration consumes at least one token, so fuel =
tokens.length always suffices). -/
def mergeLoop (m : PhraseMerger) (tokens : List String) :
    Nat → Nat → List MergedToken
  | 0, _ => []
  | fuel + 1, i =>
    if i < tokens.length then
      match tryPhraseLens m tokens i (min m.max_phrase_len (tokens.length - i)) with
      | some (len, tag, conf) =>
        { text := String.intercalate " " (pySlice tokens i (i + len))
          original_tokens := pySlice tokens i (i + len)
          start_idx := i
          end_idx := i + len
          is_merged := decide (1 < len)
          suggested_tag := some tag
          confidence := conf } :: mergeLoop m tokens fuel (i + len)
      | none =>
        { text := tokens.getD i ""
          original_tokens := [tokens.getD i ""]
          start_idx := i
          end_idx := i + 1
          is_merged := false } :: mergeLoop m tokens fuel (i + 1)
    else []

/-- PhraseMerger.merge: greedy longest-match left-to-right merging. -/
def PhraseMerger.merge (m : PhraseMerger) (tokens : List String) : List MergedToken :=
  mergeLoop m tokens tokens.length 0

/-- Written from the spec: at each index, with K = max_phrase_len and
candidate lengths 1..min(K, remaining), consume the greatest length l
whose lower-cased token tuple exists in the table as one MergedToken
(source tokens joined with single spaces, original casing preserved,
carrying the table's tag and confidence, merged iff l > 1); a token
matching no phrase length passes through as a length-1 MergedToken with
no suggested tag. -/
def mergeSpecLoop (m : PhraseMerger) (tokens : List String) :
    Nat → Nat → List MergedToken
  | 0, _ => []
  | fuel + 1, i =>
    if i < tokens.length then
      let l := Nat.findGreatest
        (fun l => l ≠ 0 ∧
          (alookup ((pySlice tokens i (i + l)).map pyLower) m.phrases).isSome)
        (min m.max_phrase_len (tokens.length - i))
      if l = 0 then
        { text := tokens.getD i ""
          original_tokens := [tokens.getD i ""]
          start_idx := i
          end_idx := i + 1
          is_merged := false } :: mergeSpecLoop m tokens fuel (i + 1)
      else
        match alookup ((pySlice tokens i (i + l)).map pyLower) m.phrases with
        | some (tag, conf) =>
          { text := String.intercalate " " (pySlice tokens i (i + l))
            original_tokens := pySlice tokens i (i + l)
            start_idx := i
            end_idx := i + l
            is_merged := decide (1 < l)
            suggested_tag := some tag
            confidence := conf } :: mergeSpecLoop m tokens fuel (i + l)
        | none =>
          { text := tokens.getD i ""
            original_tokens := [tokens.getD i ""]
            start_idx := i
            end_idx := i + 1
            is_merged := false } :: mergeSpecLoop m tokens fuel (i + 1)
    else []

/-- Spec-side formulation of the merge contract. -/
def mergeSpec (m : PhraseMerger) (tokens : List String) : List MergedToken :=
  mergeSpecLoop m tokens tokens.length 0

/-! ## Japanese compound merger (src/core/japanese_compound_merger.py) -/

/-- JapaneseToken dataclass. -/
structure JapaneseToken where
  text : String
  is_merged : Bool := false
  original_tokens : List String := []
  suggested_tag : Option String := none
  confidence : Frac := ⟨0, 1⟩
deriving DecidableEq

/-- Intermediate list element of the merger passes: a plain string or a
JapaneseToken (Python mixes both). -/
def JaTok := String ⊕ JapaneseToken

/-- The text of an intermediate element (t.text if isinstance(t,
JapaneseToken) else t). -/
def jaText : JaTok → String
  | .inl s => s
  | .inr t => t.text

/-- compound_dict: token tuples mapped to the merged word. -/
def compound_dict : List (List String × String) :=
  [(["腹", "巻", "き"], "腹巻き"), (["腹", "巻"], "腹巻"),
   (["肌", "着"], "肌着"), (["下", "着"], "下着"), (["上", "着"], "上着"),
   (["入", "れ"], "入れ"), (["出", "し"], "出し"), (["取", "り"], "取り"),
   (["付", "け"], "付け"), (["掛", "け"], "掛け"), (["置", "き"], "置き"),
   (["吊", "り"], "吊り"), (["巻", "き"], "巻き"), (["畳", "み"], "畳み"),
   (["た", "た", "み"], "たたみ"), (["さ", "め"], "さめ"),
   (["き", "め"], "きめ"), (["し", "め"], "しめ"),
   (["トート", "バッグ"], "トートバッグ"),
   (["ショルダー", "バッグ"], "ショルダーバッグ"),
   (["ボディ", "バッグ"], "ボディバッグ"),
   (["ウエスト", "バッグ"], "ウエストバッグ"),
   (["エコ", "バッグ"], "エコバッグ"),
   (["スーツ", "ケース"], "スーツケース"),
   (["キャリー", "ケース"], "キャリーケース"),
   (["ペン", "ケース"], "ペンケース"),
   (["メイク", "ポーチ"], "メイクポーチ"),
   (["ランニング", "シューズ"], "ランニングシューズ"),
   (["スニーカー", "シューズ"], "スニーカーシューズ"),
   (["Tシャツ"], "Tシャツ"), (["T", "シャツ"], "Tシャツ"),
   (["メンズ"], "メンズ"), (["レディース"], "レディース"),
   (["キッズ"], "キッズ"), (["ベビー"], "ベビー"),
   (["ジュニア"], "ジュニア"),
   (["大", "容量"], "大容量"), (["軽", "量"], "軽量"),
   (["防", "水"], "防水"), (["耐", "水"], "耐水"),
   (["保", "温"], "保温"), (["保", "冷"], "保冷"),
   (["抗", "菌"], "抗菌"), (["速", "乾"], "速乾"),
   (["吸", "汗"], "吸汗"), (["通", "気"], "通気"),
   (["アウト", "ドア"], "アウトドア"), (["インドア"], "インドア"),
   (["オフィス"], "オフィス"), (["ビジネス"], "ビジネス"),
   (["カジュアル"], "カジュアル"), (["フォーマル"], "フォーマル")]

/-- suffix_patterns: inflectional endings that merge with the previous
token. -/
def ja_suffix_patterns : List String :=
  ["き", "く", "け", "い", "う", "た", "て", "ない", "れる", "せる",
   "める", "ける", "える", "げる", "べる", "ねる", "へる",
   "さ", "み", "め", "し", "じ"]

/-- merge_patterns: each regex pair (prefix-pattern, suffix-pattern) of
the source has the shape ".*[chars]$" / "^[chars]": the previous token
must end with one of the first set and the next token must start with
one of the second set. -/
def ja_merge_patterns : List (List Char × List Char) :=
  [(['巻', '掛', '置', '付', '吊', '掃', '取'],
    ['き', 'く', 'け', 'い', 'う', 'た', 'て', 'っ']),
   (['入', '出'], ['れ', 'り', 'っ']),
   (['き'], ['め']),
   (['さ'], ['め']),
   (['た'], ['た', 'み', 'め'])]

/-- must_merge list. -/
def ja_must_merge : List String :=
  ["トートバッグ", "ショルダーバッグ", "ボディバッグ", "ウエストバッグ",
   "エコバッグ", "スーツケース", "キャリーケース", "ペンケース",
   "メイクポーチ", "ランニングシューズ", "スニーカー",
   "腹巻き", "肌着", "下着", "大容量", "軽量", "防水",
   "アウトドア", "ビジネス", "カジュアル",
   "メンズ", "レディース", "キッズ", "ベビー", "ジュニア"]

/-- katakana_product_suffixes. -/
def katakana_product_suffixes : List String :=
  ["バッグ", "ポーチ", "ケース", "カバー", "ホルダー",
   "ボックス", "ラック", "スタンド", "マット", "パッド",
   "シャツ", "パンツ", "スカート", "ジャケット", "コート",
   "シューズ", "ブーツ", "サンダル", "スニーカー",
   "リュック", "ザック", "ベスト", "キャップ", "ハット"]

/-- A katakana code point (U+30A0 - U+30FF). -/
def isKatakanaChar (c : Char) : Bool :=
  0x30A0 ≤ c.toNat ∧ c.toNat ≤ 0x30FF

/-- JapaneseCompoundMerger._is_katakana: at least half of the
characters are katakana (katakana_count >= len * 0.5). -/
def ja_is_katakana (s : String) : Bool :=
  ¬ s.data.isEmpty ∧ s.data.length ≤ 2 * (s.data.filter isKatakanaChar).length

/-- Longest-match lookup (up to the given length bound, counting down)
against compound_dict, mirroring the inner for-loop of _dict_merge. -/
def tryCompound (tokens : List String) (i : Nat) : Nat → Option (Nat × String)
  | 0 => none
  | l + 1 =>
    match alookup (pySlice tokens i (i + (l + 1))) compound_dict with
    | some merged => some (l + 1, merged)
    | none => tryCompound tokens i l

/-- _dict_merge loop (fuel bounds iterations; each consumes at least
one token). -/
def jaDictMergeLoop (tokens : List String) : Nat → Nat → List JaTok
  | 0, _ => []
  | fuel + 1, i =>
    if i < tokens.length then
      match tryCompound tokens i (min 4 (tokens.length - i)) with
      | some (len, merged) =>
        .inr { text := merged, is_merged := true
               original_tokens := pySlice tokens i (i + len) } ::
          jaDictMergeLoop tokens fuel (i + len)
      | none => .inl (tokens.getD i "") :: jaDictMergeLoop tokens fuel (i + 1)
    else []

/-- JapaneseCompoundMerger._dict_merge. -/
def jaDictMerge (tokens : List String) : List JaTok :=
  jaDictMergeLoop tokens tokens.length 0

/-- re.match ".*[chars]$" on a token: its last character is in the
set (tokens contain no newline, so the dot-star part always matches). -/
def strEndsIn (s : String) (cs : List Char) : Bool :=
  match s.data.getLast? with
  | some c => cs.contains c
  | none => false

/-- re.match "^[chars]" on a token: its first character is in the set. -/
def strStartsIn (s : String) (cs : List Char) : Bool :=
  match s.data.head? with
  | some c => cs.contains c
  | none => false

/-- Whether _rule_merge merges the current token with the next one. -/
def jaRuleShouldMerge (current next_token : String) : Bool :=
  (ja_suffix_patterns.contains next_token && decide (1 ≤ current.data.length)) ||
  ja_merge_patterns.any (fun p =>
    strEndsIn current p.1 && strStartsIn next_token p.2)

/-- _rule_merge loop over the intermediate list. -/
def jaRuleMergeLoop : Nat → List JaTok → List JaTok
  | 0, _ => []
  | _, [] => []
  | fuel + 1, t :: rest =>
    let current := jaText t
    match rest with
    | next :: rest2 =>
      if jaRuleShouldMerge current (jaText next) then
        .inr { text := current ++ jaText next, is_merged := true
               original_tokens := [current, jaText next] } ::
          jaRuleMergeLoop fuel rest2
      else
        (match t with
         | .inr jt => .inr jt
         | .inl _ => .inr { text := current }) :: jaRuleMergeLoop fuel rest
    | [] =>
      (match t with
       | .inr jt => .inr jt
       | .inl _ => .inr { text := current }) :: jaRuleMergeLoop fuel rest

/-- JapaneseCompoundMerger._rule_merge (returns the input unchanged
when it has fewer than two elements). -/
def jaRuleMerge (tokens : List JaTok) : List JaTok :=
  if tokens.length < 2 then tokens
  else jaRuleMergeLoop tokens.length tokens

/-- _katakana_merge loop; dictWords models self.dictionary_words. -/
def jaKatakanaMergeLoop (dictWords : List String) : Nat → List JaTok → List JaTok
  | 0, _ => []
  | _, [] => []
  | fuel + 1, t :: rest =>
    let current := jaText t
    match rest with
    | next :: rest2 =>
      let next_token := jaText next
      if katakana_product_suffixes.contains next_token ∧
         ja_is_katakana current ∧
         (ja_must_merge.contains (current ++ next_token) ∨
          dictWords.contains (pyLower (current ++ next_token)) ∨
          dictWords.contains (current ++ next_token)) then
        .inr { text := current ++ next_token, is_merged := true
               original_tokens := [current, next_token]
               suggested_tag := some "商品词", confidence := ⟨85, 100⟩ } ::
          jaKatakanaMergeLoop dictWords fuel rest2
      else
        t :: jaKatakanaMergeLoop dictWords fuel rest
    | [] => t :: jaKatakanaMergeLoop dictWords fuel rest

/-- JapaneseCompoundMerger._katakana_merge. -/
def jaKatakanaMerge (dictWords : List String) (tokens : List JaTok) : List JaTok :=
  if tokens.length < 2 then tokens
  else jaKatakanaMergeLoop dictWords tokens.length tokens

/-- JapaneseCompoundMerger.merge: the three sequential passes, then
conversion of plain strings to JapaneseTokens. -/
def jaMerge (dictWords : List String) (tokens : List String) : List JapaneseToken :=
  if tokens.isEmpty then []
  else
    (jaKatakanaMerge dictWords (jaRuleMerge (jaDictMerge tokens))).map
      (fun t => match t with
        | .inr jt => jt
        | .inl s => { text := s })

/-- JapaneseCompoundMerger.merge_to_strings. -/
def jaMergeToStrings (dictWords : List String) (tokens : List String) : List String :=
  (jaMerge dictWords tokens).map (·.text)

/-! ## Enhanced tagger (src/core/enhanced_tagger.py) -/

/-- TagCandidate dataclass. -/
structure TagCandidate where
  tag : String
  confidence : Frac
  method : String
  source : String := ""
deriving DecidableEq

/-- TagResult dataclass. -/
structure TagResult where
  token : String
  tags : List String
  primary_tag : String
  confidence : Frac
  method : String
  all_candidates : List TagCandidate := []
deriving DecidableEq

/-- Placeholder used for out-of-range list access (never reached on
valid indices). -/
def dummyResult : TagResult :=
  { token := "", tags := [], primary_tag := "", confidence := ⟨0, 1⟩, method := "" }

/-- TAG_COMPATIBILITY matrix, exactly as written in the source
(including the entries whose pair is not in sorted order). -/
def TAG_COMPATIBILITY : List ((String × String) × Bool) :=
  [(("尺寸词", "颜色词"), false),
   (("尺寸词", "品牌词"), false),
   (("颜色词", "品牌词"), false),
   (("商品词", "卖点词"), true),
   (("场景词", "人群词"), true),
   (("属性词", "商品词"), true),
   (("属性词", "卖点词"), true)]

/-- are_tags_compatible: equal tags are compatible; otherwise sort the
pair with Python string comparison, look it up in the matrix, and
default to compatible. -/
def are_tags_compatible (tag1 tag2 : String) : Bool :=
  if tag1 = tag2 then true
  else
    let key := if pyStrLt tag1 tag2 then (tag1, tag2) else (tag2, tag1)
    (alookup key TAG_COMPATIBILITY).getD true

/-- stopwords list from _build_inference_rules (Python set; only
membership is observed, so a list is an exact model). -/
def tagger_stopwords : List String :=
  ["for", "with", "and", "the", "a", "an", "of", "in", "on", "to", "by",
   "or", "at", "as", "if", "so", "up", "it", "is", "be", "do", "no",
   "mit", "für", "und", "der", "die", "das", "ein", "eine",
   "wei", "gro", "gr", "rer",
   "de", "pour", "avec", "sans", "en", "et", "le", "la", "les", "un", "une",
   "du", "au", "aux", "ce", "se", "ne", "que", "qui", "ou", "vue",
   "para", "con", "y", "el", "los", "las",
   "ni", "as", "os", "ba", "al", "del", "es", "su", "si",
   "の", "を", "に", "は", "が", "で", "と", "も", "や",
   "さめ", "きめ", "たたみ", "せる", "つける", "きい", "ける", "ない"]

/-- product_keywords. -/
def product_keywords : List String :=
  ["シャツ", "Tシャツ", "パンツ", "ジャケット", "コート", "スカート",
   "バッグ", "ポーチ", "リュック", "シューズ", "ブーツ", "ケース",
   "ベスト", "ザック",
   "hose", "jacke", "mantel", "hemd", "bluse", "rock", "kleid",
   "tasche", "rucksack", "schuhe", "stiefel",
   "pantalon", "veste", "manteau", "chemise", "robe", "jupe",
   "sac", "chaussures", "bottes",
   "pantalón", "chaqueta", "abrigo", "camisa", "vestido", "falda",
   "bolso", "mochila", "zapatos", "botas",
   "shirt", "pants", "jacket", "coat", "dress", "skirt",
   "bag", "backpack", "shoes", "boots", "shorts", "tops",
   "legging", "leggings", "belt", "hat", "cap"]

/-- audience_keywords. -/
def audience_keywords : List String :=
  ["メンズ", "レディース", "キッズ", "ベビー",
   "damen", "herren", "kinder", "baby",
   "femme", "homme", "enfant",
   "mujer", "hombre", "niño", "niña", "niños",
   "men", "women", "mens", "womens", "men's", "women's",
   "kids", "boys", "girls", "unisex", "adult"]

/-- scenario_keywords. -/
def scenario_keywords : List String :=
  ["ランニング", "トレーニング", "ヨガ", "スポーツ", "アウトドア",
   "キャンプ", "登山", "ハイキング", "トレッキング",
   "sport", "fitness", "yoga", "outdoor", "camping", "wandern",
   "running", "training", "hiking", "gym", "travel"]

/-- feature_keywords. -/
def feature_keywords : List String :=
  ["軽量", "防水", "撥水", "速乾", "保温", "通気", "ストレッチ",
   "wasserdicht", "atmungsaktiv", "leicht", "warm", "elastisch", "thermo",
   "imperméable", "respirant", "léger", "rechargeable",
   "impermeable", "transpirable", "ligero",
   "waterproof", "breathable", "lightweight", "compression",
   "quick-dry", "thermal"]

/-- attribute_keywords. -/
def attribute_keywords : List String :=
  ["半袖", "長袖", "フード付き", "タイプ",
   "langarm", "kurzarm", "mini",
   "haute", "taille", "long", "court",
   "alta", "largo", "corto", "externo",
   "short", "high", "low", "waist", "sleeve",
   "wireless", "bluetooth"]

/-- context_boost table from _build_context_rules. -/
def context_boost : List ((String × String) × Frac) :=
  [(("品牌词", "商品词"), ⟨5, 100⟩),
   (("商品词", "品牌词"), ⟨-1, 10⟩),
   (("颜色词", "商品词"), ⟨3, 100⟩),
   (("number", "unit"), ⟨3, 10⟩),
   (("人群词", "商品词"), ⟨2, 100⟩),
   (("场景词", "商品词"), ⟨2, 100⟩)]

/-- unit_words from _build_context_rules. -/
def unit_words : List String :=
  ["码", "寸", "号", "cm", "mm", "m", "inch", "英寸", "厘米",
   "kg", "g", "lb", "磅", "克", "千克",
   "ml", "l", "毫升", "升",
   "gb", "tb", "mb"]

/-- model_suffixes. -/
def model_suffixes : List String :=
  ["pro", "max", "plus", "mini", "lite", "ultra", "se"]

/-- common_words of the capitalised-first heuristic. -/
def heuristic_common_words : List String :=
  ["the", "a", "an", "and", "or", "for", "with", "new", "pro", "max", "mini"]

/-- First colour regex: re.match ".+[色系]$" - at least two characters
and the last one is 色 or 系. -/
def colorPattern1 (l : List Char) : Bool :=
  decide (2 ≤ l.length) && (match l.getLast? with
    | some c => c = '色' || c = '系'
    | none => false)

/-- Second colour regex: re.match "^(深|浅|亮|暗|淡).+色$". -/
def colorPattern2 (l : List Char) : Bool :=
  decide (3 ≤ l.length) &&
  (match l.head? with
   | some c => ['深', '浅', '亮', '暗', '淡'].contains c
   | none => false) &&
  (match l.getLast? with
   | some c => c = '色'
   | none => false)

/-- Matching any colour pattern (the source breaks after the first
match, producing at most one colour candidate). -/
def colorPatternMatch (l : List Char) : Bool :=
  colorPattern1 l || colorPattern2 l

/-- Anchored regex of the shape "^\d+\.?\d*\s*(unit1|...|unitN)$"
(case-insensitive): greedy digits, one optional dot, greedy digits,
greedy whitespace, then the remainder (lower-cased) must equal one of
the units.  No unit begins with a digit, a dot or whitespace, so the
greedy reading is exactly the regex semantics. -/
def numUnitAnchored (units : List String) (l : List Char) : Bool :=
  let ds := l.takeWhile pyIsDigitChar
  if ds.isEmpty then false
  else
    let r1 := l.drop ds.length
    let r2 := match r1 with
      | '.' :: t => t
      | _ => r1
    let r3 := r2.drop (r2.takeWhile pyIsDigitChar).length
    let r4 := r3.drop (r3.takeWhile pyIsSpaceChar).length
    units.contains (String.mk (r4.map pyLowerChar))

/-- Regex "^\d+x\d+$" (case-insensitive). -/
def dimPattern (l : List Char) : Bool :=
  let ds := l.takeWhile pyIsDigitChar
  if ds.isEmpty then false
  else
    match l.drop ds.length with
    | c :: rest =>
      (c = 'x' || c = 'X') && decide (¬ rest.isEmpty) && rest.all pyIsDigitChar
    | [] => false

/-- Regex "^\d+l$" (case-insensitive). -/
def litersPattern (l : List Char) : Bool :=
  let ds := l.takeWhile pyIsDigitChar
  if ds.isEmpty then false
  else
    match l.drop ds.length with
    | [c] => c = 'l' || c = 'L'
    | _ => false

/-- size_patterns: the eight regexes of _build_patterns (the source
breaks after the first match, producing at most one size candidate). -/
def sizePatternMatch (t : String) : Bool :=
  let l := t.data
  numUnitAnchored ["码", "寸", "号", "cm", "mm", "m", "inch", "英寸", "厘米"] l ||
  numUnitAnchored ["kg", "g", "lb", "磅", "克", "千克"] l ||
  numUnitAnchored ["ml", "l", "毫升", "升"] l ||
  numUnitAnchored ["gb", "tb", "mb"] l ||
  ["s", "m", "l", "xl", "xxl", "xxxl", "xs", "2xl", "3xl", "4xl"].contains
    (pyLower t) ||
  dimPattern l ||
  litersPattern l ||
  numUnitAnchored ["张", "片", "个", "只", "条", "支", "瓶", "盒", "包", "袋",
                   "件", "套", "双", "对"] l

/-- The dictionary manager and the lazily-loaded Spanish normalizer as
seen by the tagger.  dict_contains and get_all_words model the
DictionaryManager read API; dict_entry gives the stored confidence of
an entry when the entry exists and carries one (the call sites default
it to 0.9 otherwise, as entry.get("confidence", 0.9) does).
normalize_es models SpanishNormalizer.normalize: some n exactly when
normalisation changes the token (result.normalized != token and
result.changes is nonempty). -/
structure TaggerEnv where
  dict_contains : String → String → Bool
  dict_entry : String → String → Option Frac
  get_all_words : String → List String
  normalize_es : String → Option String

/-- tag_dict_mapping, in source (insertion) order. -/
def tag_dict_mapping : List (String × String) :=
  [("brands", "品牌词"), ("products", "商品词"), ("audiences", "人群词"),
   ("scenarios", "场景词"), ("colors", "颜色词"), ("features", "卖点词"),
   ("attributes", "属性词")]

/-- The seven category names iterated by _merge_japanese_compounds. -/
def ja_dict_categories : List String :=
  ["products", "brands", "scenarios", "features", "attributes", "colors",
   "audiences"]

/-- The word set handed to the Japanese merger: lower-cased plus
original spellings of all dictionary words (set semantics: only
membership is observed). -/
def allDictWords (env : TaggerEnv) : List String :=
  ja_dict_categories.flatMap (fun n =>
    let ws := env.get_all_words n
    ws.map pyLower ++ ws)

/-- Whether a token contains a Japanese character (hiragana, katakana
or CJK), as tested by _merge_japanese_compounds. -/
def hasJapaneseChar (t : String) : Bool :=
  t.data.any (fun c =>
    (0x3040 ≤ c.toNat ∧ c.toNat ≤ 0x309F) ∨
    (0x30A0 ≤ c.toNat ∧ c.toNat ≤ 0x30FF) ∨
    (0x4E00 ≤ c.toNat ∧ c.toNat ≤ 0x9FFF))

/-- EnhancedTagger._merge_japanese_compounds. -/
def mergeJapaneseCompounds (env : TaggerEnv) (tokens : List String) : List String :=
  if tokens.any hasJapaneseChar then
    jaMergeToStrings (allDictWords env) tokens
  else tokens

/-- The language hints that trigger the Japanese compound merge
(language in ("ja", "japanese", "日语", None)). -/
def isJapaneseHint (language : Option String) : Bool :=
  language = none ∨ language = some "ja" ∨ language = some "japanese" ∨
  language = some "日语"

/-- The language hints that trigger Spanish normalisation
(language in ("es", "spanish", "西班牙语", None)). -/
def isSpanishHint (language : Option String) : Bool :=
  language = none ∨ language = some "es" ∨ language = some "spanish" ∨
  language = some "西班牙语"

/-- EnhancedTagger._match_dictionary. -/
def matchDictionary (env : TaggerEnv) (token : String)
    (language : Option String) : List TagCandidate :=
  let token_lower := pyLower token
  let normalized_token : Option String :=
    if isSpanishHint language then env.normalize_es token_lower
    else none
  tag_dict_mapping.flatMap (fun p =>
    let dict_name := p.1
    let tag_type := p.2
    if env.dict_contains dict_name token_lower then
      [{ tag := tag_type
         confidence := (env.dict_entry dict_name token_lower).getD ⟨9, 10⟩
         method := "dict"
         source := "dict:" ++ dict_name }]
    else
      match normalized_token with
      | some nt =>
        if env.dict_contains dict_name nt then
          [{ tag := tag_type
             confidence := Frac.mul ((env.dict_entry dict_name nt).getD ⟨9, 10⟩) ⟨95, 100⟩
             method := "dict_normalized"
             source := "dict:" ++ dict_name ++ "(normalized:" ++ nt ++ ")" }]
        else []
      | none => [])

/-- EnhancedTagger._match_patterns. -/
def matchPatterns (token : String) : List TagCandidate :=
  (if colorPatternMatch token.data then
    [{ tag := "颜色词", confidence := ⟨85, 100⟩, method := "pattern"
       source := "color_pattern" }]
   else []) ++
  (if sizePatternMatch token then
    [{ tag := "尺寸词", confidence := ⟨95, 100⟩, method := "pattern"
       source := "size_pattern" }]
   else [])

/-- EnhancedTagger._infer_by_rules. -/
def inferByRules (token : String) : List TagCandidate :=
  let token_lower := pyLower token
  (if product_keywords.contains token_lower ∨ product_keywords.contains token then
    [{ tag := "商品词", confidence := ⟨85, 100⟩, method := "rule"
       source := "product_keywords" }]
   else []) ++
  (if audience_keywords.contains token_lower ∨ audience_keywords.contains token then
    [{ tag := "人群词", confidence := ⟨85, 100⟩, method := "rule"
       source := "audience_keywords" }]
   else []) ++
  (if scenario_keywords.contains token_lower ∨ scenario_keywords.contains token then
    [{ tag := "场景词", confidence := ⟨85, 100⟩, method := "rule"
       source := "scenario_keywords" }]
   else []) ++
  (if feature_keywords.contains token_lower ∨ feature_keywords.contains token then
    [{ tag := "卖点词", confidence := ⟨85, 100⟩, method := "rule"
       source := "feature_keywords" }]
   else []) ++
  (if attribute_keywords.contains token_lower ∨ attribute_keywords.contains token then
    [{ tag := "属性词", confidence := ⟨8, 10⟩, method := "rule"
       source := "attribute_keywords" }]
   else [])

/-- EnhancedTagger._infer_heuristic. -/
def inferHeuristic (token : String) (position : Nat) : List TagCandidate :=
  let token_lower := pyLower token
  (if decide (2 < token.data.length) &&
      (match token.data.head? with
       | some c => pyIsUpperChar c
       | none => false) &&
      pyIsAlphaStr token &&
      ! heuristic_common_words.contains token_lower &&
      decide (position = 0) then
    [{ tag := "品牌词", confidence := ⟨65, 100⟩, method := "heuristic"
       source := "capitalized_first" }]
   else []) ++
  (if token.data.any pyIsDigitChar then
    [{ tag := "尺寸词", confidence := ⟨7, 10⟩, method := "heuristic"
       source := "contains_digit" }]
   else []) ++
  (if model_suffixes.contains token_lower ∧ 0 < position then
    [{ tag := "属性词", confidence := ⟨75, 100⟩, method := "heuristic"
       source := "model_suffix" }]
   else [])

/-- EnhancedTagger._get_candidates. -/
def getCandidates (env : TaggerEnv) (token : String) (position : Nat)
    (language : Option String) : List TagCandidate :=
  let token_lower := pyLower token
  if tagger_stopwords.contains token_lower then
    [{ tag := "属性词", confidence := ⟨85, 100⟩, method := "stopword"
       source := "stopword_list" }]
  else
    let candidates := matchDictionary env token language ++ matchPatterns token ++
      inferByRules token
    let needHeuristic : Bool :=
      match candidates with
      | [] => true
      | c :: cs => Frac.lt (cs.foldl (fun a x => pyMax a x.confidence) c.confidence) ⟨7, 10⟩
    if needHeuristic then candidates ++ inferHeuristic token position
    else candidates

/-- EnhancedTagger._create_result: stable sort by confidence
descending, pick the primary, append at most one compatible secondary
tag with confidence at least 0.7. -/
def createResult (token : String) (candidates : List TagCandidate) : TagResult :=
  match candidates with
  | [] =>
    { token := token, tags := ["属性词"], primary_tag := "属性词"
      confidence := ⟨1, 2⟩, method := "default" }
  | _ =>
    let sorted := stableSort (fun a b => Frac.le b.confidence a.confidence) candidates
    let primary := sorted.headD { tag := "", confidence := ⟨0, 1⟩, method := "" }
    let secondary_tags := (sorted.tail.filter (fun c =>
      are_tags_compatible primary.tag c.tag ∧ Frac.le ⟨7, 10⟩ c.confidence)).map (·.tag)
    { token := token
      tags := primary.tag :: secondary_tags.take 1
      primary_tag := primary.tag
      confidence := primary.confidence
      method := primary.method
      all_candidates := sorted }

/-- prev_token.replace(".", "").isdigit(). -/
def dropDotsIsDigit (s : String) : Bool :=
  let f := s.data.filter (fun c => c ≠ '.')
  ¬ f.isEmpty ∧ f.all pyIsDigitChar

/-- The forced numeric-unit result of Stage C. -/
def forceSizeResult (r : TagResult) : TagResult :=
  { token := r.token, tags := ["尺寸词"], primary_tag := "尺寸词"
    confidence := ⟨95, 100⟩, method := "context"
    all_candidates := r.all_candidates }

/-- EnhancedTagger._apply_context_adjustments: returns the input
unchanged for fewer than two results; otherwise one left-to-right pass
forcing the numeric-unit rule and applying the context_boost table
(clamped to [0, 1]). -/
def applyContextAdjustments (results : List TagResult) (tokens : List String) :
    List TagResult :=
  if results.length < 2 then results
  else
    (List.range results.length).map (fun i =>
      let result := results.getD i dummyResult
      let prev_tag : Option String :=
        if 0 < i then some (results.getD (i - 1) dummyResult).primary_tag
        else none
      let result :=
        if 0 < i ∧ dropDotsIsDigit (tokens.getD (i - 1) "") ∧
           unit_words.contains (pyLower (tokens.getD i "")) then
          forceSizeResult result
        else result
      let adjustment : Frac :=
        match prev_tag with
        | some pt => (alookup (pt, result.primary_tag) context_boost).getD Frac.zero
        | none => Frac.zero
      if adjustment.nonzero then
        { token := result.token, tags := result.tags
          primary_tag := result.primary_tag
          confidence := pyMin ⟨1, 1⟩ (pyMax ⟨0, 1⟩ (Frac.add result.confidence adjustment))
          method := result.method
          all_candidates := result.all_candidates }
      else result)

/-- EnhancedTagger.tag: optional Japanese compound merge, per-token
candidate generation and resolution, then context adjustment.  The
context argument is accepted but unused, as in the source. -/
def tag (env : TaggerEnv) (tokens : List String) (_context : Option String)
    (language : Option String) : List TagResult :=
  let tokens :=
    if isJapaneseHint language then mergeJapaneseCompounds env tokens
    else tokens
  let results := tokens.enum.map (fun p =>
    createResult p.2 (getCandidates env p.2 p.1 language))
  applyContextAdjustments results tokens

/-! ## Span phrase extractor (src/core/span_extractor.py) -/

/-- SpanType enum. -/
inductive SpanType where
  | BRAND
  | MODEL
  | FIXED_PHRASE
  | NUMBER_UNIT
deriving DecidableEq

/-- The word-entry payload stored at a trie end node. -/
structure SpanData where
  tag : String
  confidence : Frac
  type : SpanType
deriving DecidableEq

/-- Span dataclass; endPos models the Python field named end. -/
structure Span where
  start : Nat
  endPos : Nat
  text : String
  span_type : SpanType
  tag : String
  confidence : Frac
deriving DecidableEq

/-- Trie node: children (Python dict, insertion-ordered association
list), is_end flag and optional payload. -/
inductive TrieNode where
  | mk (children : List (Char × TrieNode)) (is_end : Bool) (data : Option SpanData)

/-- Children of a node. -/
def TrieNode.children : TrieNode → List (Char × TrieNode)
  | .mk c _ _ => c

/-- End-of-word flag of a node. -/
def TrieNode.is_end : TrieNode → Bool
  | .mk _ e _ => e

/-- Payload of a node. -/
def TrieNode.data : TrieNode → Option SpanData
  | .mk _ _ d => d

/-- The empty trie node. -/
def TrieNode.empty : TrieNode := .mk [] false none

/-- Update a key of an association list in place, appending when the
key is new (Python dict assignment). -/
def assocSet {κ α : Type} [DecidableEq κ] : List (κ × α) → κ → α → List (κ × α)
  | [], k, v => [(k, v)]
  | (k', v') :: rest, k, v =>
    if k' = k then (k, v) :: rest else (k', v') :: assocSet rest k v

/-- Trie.insert walking the (already normalised) characters. -/
def TrieNode.insertChars : TrieNode → List Char → SpanData → TrieNode
  | .mk ch _ _, [], dataN => .mk ch true (some dataN)
  | .mk ch e d, c :: cs, dataN =>
    let child := (alookup c ch).getD TrieNode.empty
    .mk (assocSet ch c (child.insertChars cs dataN)) e d

/-- A case-insensitive trie (both tries of the extractor are built
with case_sensitive=False, so _normalize is str.lower). -/
structure Trie where
  root : TrieNode

/-- Trie.insert: normalise the word to lower case and store it. -/
def Trie.insert (t : Trie) (word : String) (data : SpanData) : Trie :=
  ⟨t.root.insertChars (word.data.map pyLowerChar) data⟩

/-- The empty trie. -/
def Trie.empty : Trie := ⟨TrieNode.empty⟩

/-- The character walk of Trie.search_longest: follow children along
the remaining normalised text, remembering the end position and
payload of the last end node passed. -/
def searchStep (node : TrieNode) (rest : List Char) (pos : Nat)
    (best : Option (Nat × Option SpanData)) : Option (Nat × Option SpanData) :=
  match rest with
  | [] => best
  | c :: cs =>
    match alookup c node.children with
    | none => best
    | some child =>
      searchStep child cs (pos + 1)
        (if child.is_end then some (pos + 1, child.data) else best)

/-- Trie.search_longest: longest match of an inserted key from the
given offset; returns the matched slice of the original text, the end
position and the payload. -/
def Trie.search_longest (t : Trie) (text : List Char) (start : Nat) :
    Option (List Char × Nat × Option SpanData) :=
  let norm := text.map pyLowerChar
  match searchStep t.root (norm.drop start) start none with
  | some (e, d) => some (pySlice text start e, e, d)
  | none => none

/-- Whether the (normalised) word is an inserted key below the node. -/
def hasKeyFrom (node : TrieNode) : List Char → Bool
  | [] => node.is_end
  | c :: cs =>
    match alookup c node.children with
    | some child => hasKeyFrom child cs
    | none => false

/-- The extractor: a CJK trie and a boundary-checked Latin trie. -/
structure SpanExtractor where
  cjk_trie : Trie
  latin_trie : Trie

/-- The extractor before any insertion. -/
def SpanExtractor.empty : SpanExtractor := ⟨Trie.empty, Trie.empty⟩

/-- SpanPhraseExtractor._is_cjk_dominant: strictly more than half of
the characters are CJK or kana. -/
def isCjkDominant (s : String) : Bool :=
  s.data.length < 2 * (s.data.filter (fun c =>
    (0x4E00 ≤ c.toNat ∧ c.toNat ≤ 0x9FFF) ∨
    (0x3040 ≤ c.toNat ∧ c.toNat ≤ 0x30FF))).length

/-- SpanPhraseExtractor.add_phrase: route the phrase to the CJK or the
Latin trie. -/
def SpanExtractor.add_phrase (ex : SpanExtractor) (phrase : String)
    (tag : String) (confidence : Frac) (span_type : SpanType) : SpanExtractor :=
  let data : SpanData := ⟨tag, confidence, span_type⟩
  if isCjkDominant phrase then
    { ex with cjk_trie := ex.cjk_trie.insert phrase data }
  else
    { ex with latin_trie := ex.latin_trie.insert phrase data }

/-- SpanPhraseExtractor._is_cjk_char. -/
def extractorIsCjkChar (c : Char) : Bool :=
  (0x4E00 ≤ c.toNat ∧ c.toNat ≤ 0x9FFF) ∨
  (0x3040 ≤ c.toNat ∧ c.toNat ≤ 0x309F) ∨
  (0x30A0 ≤ c.toNat ∧ c.toNat ≤ 0x30FF)

/-- The unit alternatives of the number_unit_pattern regex, in source
order, lower-cased (the pattern carries re.IGNORECASE). -/
def number_unit_units : List String :=
  ["码", "寸", "号", "cm", "mm", "m", "inch", "英寸", "厘米",
   "kg", "g", "lb", "磅", "克", "千克",
   "ml", "l", "毫升", "升",
   "gb", "tb", "mb", "gb", "tb", "mb",
   "张", "片", "个", "只", "条", "支", "瓶", "盒", "包", "袋", "件", "套",
   "双", "对"]

/-- The first unit alternative (regex alternation is first-match, not
longest-match) that is a case-insensitive prefix of the remainder. -/
def firstUnitLen (r : List Char) : Option Nat :=
  (number_unit_units.find? (fun u =>
    (r.take u.data.length).map pyLowerChar = u.data)).map (·.data.length)

/-- One attempted match of the number+unit regex at a position:
greedy digits (at least one), optional dot, greedy digits, greedy
whitespace, then a unit alternative.  No alternative begins with a
digit, a dot or whitespace, so the greedy reading is exact. -/
def matchNumberUnitAt (l : List Char) (p : Nat) : Option Nat :=
  let r := l.drop p
  let ds := r.takeWhile pyIsDigitChar
  if ds.isEmpty then none
  else
    let r1 := r.drop ds.length
    let dot : Nat := match r1 with
      | '.' :: _ => 1
      | _ => 0
    let r2 := r1.drop dot
    let d2 := r2.takeWhile pyIsDigitChar
    let r3 := r2.drop d2.length
    let sp := r3.takeWhile pyIsSpaceChar
    let r4 := r3.drop sp.length
    match firstUnitLen r4 with
    | some ulen => some (p + ds.length + dot + d2.length + sp.length + ulen)
    | none => none

/-- re.finditer over the number+unit pattern: scan left to right for
non-overlapping matches, resuming after each match end. -/
def finditerNumberUnit (l : List Char) : Nat → Nat → List (Nat × Nat)
  | 0, _ => []
  | fuel + 1, p =>
    if p < l.length then
      match matchNumberUnitAt l p with
      | some e => (p, e) :: finditerNumberUnit l fuel e
      | none => finditerNumberUnit l fuel (p + 1)
    else []

/-- SpanPhraseExtractor._is_in_locked_range. -/
def isInLockedRange (pos : Nat) (locked : List (Nat × Nat)) : Bool :=
  locked.any (fun r => r.1 ≤ pos ∧ pos < r.2)

/-- The per-field defaults applied by extract when reading the trie
payload (data.get with defaults). -/
def defaultSpanData : SpanData := ⟨"属性词", ⟨9, 10⟩, SpanType.FIXED_PHRASE⟩

/-- SpanPhraseExtractor._match_latin_with_boundary: reject when the
character before the start or after the end is an ASCII alphanumeric;
the trie search runs over the pre-lowered text and the original-case
slice is returned. -/
def matchLatinWithBoundary (tr : Trie) (text textLower : List Char)
    (start : Nat) : Option (List Char × Nat × Option SpanData) :=
  if 0 < start ∧ pyIsAsciiAlnum (textLower.getD (start - 1) ' ') then none
  else
    match tr.search_longest textLower start with
    | some (_, e, d) =>
      if e < text.length ∧ pyIsAsciiAlnum (textLower.getD e ' ') then none
      else some (pySlice text start e, e, d)
    | none => none

/-- The scanning while-loop of SpanPhraseExtractor.extract: at each
unlocked position run the CJK trie (CJK character) or the
boundary-checked Latin trie, record accepted spans, lock their ranges
and jump past them. -/
def extractLoop (ex : SpanExtractor) (text textLower : List Char) :
    Nat → Nat → List (Nat × Nat) → List Span × List (Nat × Nat)
  | 0, _, locked => ([], locked)
  | fuel + 1, i, locked =>
    if i < text.length then
      if isInLockedRange i locked then extractLoop ex text textLower fuel (i + 1) locked
      else
        let c := text.getD i ' '
        if extractorIsCjkChar c then
          match ex.cjk_trie.search_longest text i with
          | some (m, e, d) =>
            let dd := d.getD defaultSpanData
            let res := extractLoop ex text textLower fuel e (locked ++ [(i, e)])
            (⟨i, e, String.mk m, dd.type, dd.tag, dd.confidence⟩ :: res.1, res.2)
          | none => extractLoop ex text textLower fuel (i + 1) locked
        else
          match matchLatinWithBoundary ex.latin_trie text textLower i with
          | some (m, e, d) =>
            let dd := d.getD defaultSpanData
            let res := extractLoop ex text textLower fuel e (locked ++ [(i, e)])
            (⟨i, e, String.mk m, dd.type, dd.tag, dd.confidence⟩ :: res.1, res.2)
          | none => extractLoop ex text textLower fuel (i + 1) locked
    else ([], locked)

/-- SpanPhraseExtractor.extract: number+unit matches first (locking
their ranges), then the trie scan, then both outputs sorted by start
position. -/
def SpanExtractor.extract (ex : SpanExtractor) (text : List Char) :
    List Span × List (Nat × Nat) :=
  let nu := finditerNumberUnit text text.length 0
  let nuSpans := nu.map (fun r =>
    (⟨r.1, r.2, String.mk (pySlice text r.1 r.2), SpanType.NUMBER_UNIT, "尺寸词",
      ⟨95, 100⟩⟩ : Span))
  let textLower := text.map pyLowerChar
  let res := extractLoop ex text textLower text.length 0 nu
  (stableSort (fun a b => a.start ≤ b.start) (nuSpans ++ res.1),
   stableSort (fun a b => a.1 ≤ b.1) res.2)

/-! ## Script segmenter (src/core/script_segmenter.py) -/

/-- ScriptType enum. -/
inductive ScriptType where
  | CJK
  | KANA
  | HANGUL
  | LATIN
  | NUMBER
  | SPACE
  | PUNCT
  | OTHER
deriving DecidableEq

/-- Segment named tuple; endPos models the Python field named end. -/
structure Segment where
  text : List Char
  script : ScriptType
  start : Nat
  endPos : Nat
deriving DecidableEq

/-- ScriptSegmenter._is_cjk. -/
def segIsCjk (n : Nat) : Bool :=
  (0x4E00 ≤ n ∧ n ≤ 0x9FFF) ∨ (0x3400 ≤ n ∧ n ≤ 0x4DBF) ∨
  (0x20000 ≤ n ∧ n ≤ 0x2A6DF) ∨ (0x2A700 ≤ n ∧ n ≤ 0x2B73F) ∨
  (0x2B740 ≤ n ∧ n ≤ 0x2B81F) ∨ (0xF900 ≤ n ∧ n ≤ 0xFAFF) ∨
  (0x2F00 ≤ n ∧ n ≤ 0x2FDF)

/-- ScriptSegmenter._is_kana. -/
def segIsKana (n : Nat) : Bool :=
  (0x3040 ≤ n ∧ n ≤ 0x309F) ∨ (0x30A0 ≤ n ∧ n ≤ 0x30FF) ∨
  (0x31F0 ≤ n ∧ n ≤ 0x31FF) ∨ (0xFF65 ≤ n ∧ n ≤ 0xFF9F)

/-- ScriptSegmenter._is_hangul. -/
def segIsHangul (n : Nat) : Bool :=
  (0xAC00 ≤ n ∧ n ≤ 0xD7AF) ∨ (0x1100 ≤ n ∧ n ≤ 0x11FF) ∨
  (0x3130 ≤ n ∧ n ≤ 0x318F)

/-- ScriptSegmenter._is_latin. -/
def segIsLatin (n : Nat) : Bool :=
  (0x41 ≤ n ∧ n ≤ 0x5A) ∨ (0x61 ≤ n ∧ n ≤ 0x7A) ∨
  (0xC0 ≤ n ∧ n ≤ 0xFF) ∨ (0x100 ≤ n ∧ n ≤ 0x17F) ∨
  (0x180 ≤ n ∧ n ≤ 0x24F) ∨ (0x1E00 ≤ n ∧ n ≤ 0x1EFF) ∨
  (0xFF21 ≤ n ∧ n ≤ 0xFF3A) ∨ (0xFF41 ≤ n ∧ n ≤ 0xFF5A)

/-- ScriptSegmenter._get_script_type, in source test order. -/
def getScriptType (c : Char) : ScriptType :=
  if pyIsSpaceChar c then .SPACE
  else if pyIsDigitChar c then .NUMBER
  else if segIsCjk c.toNat then .CJK
  else if segIsKana c.toNat then .KANA
  else if segIsHangul c.toNat then .HANGUL
  else if segIsLatin c.toNat then .LATIN
  else if pyIsPunctChar c then .PUNCT
  else .OTHER

/-- ScriptSegmenter._can_merge: both scripts in {LATIN, NUMBER,
PUNCT}. -/
def canMerge (s1 s2 : ScriptType) : Bool :=
  (s1 = ScriptType.LATIN ∨ s1 = ScriptType.NUMBER ∨ s1 = ScriptType.PUNCT) ∧
  (s2 = ScriptType.LATIN ∨ s2 = ScriptType.NUMBER ∨ s2 = ScriptType.PUNCT)

/-- Loop state of ScriptSegmenter.segment. -/
structure SegState where
  segments : List Segment
  ctext : List Char
  cscript : Option ScriptType
  cstart : Nat

/-- The single pass of ScriptSegmenter.segment over the characters
(the index i tracks the enumerate counter). -/
def segLoop : List Char → Nat → SegState → SegState
  | [], _, st => st
  | c :: rest, i, st =>
    let cs := getScriptType c
    let st' :=
      if cs = ScriptType.SPACE then
        let st1 :=
          if pyStripTruthy st.ctext then
            { st with
              segments := st.segments ++
                [⟨st.ctext, st.cscript.getD ScriptType.OTHER, st.cstart, i⟩]
              ctext := []
              cscript := none }
          else st
        { st1 with cstart := i + 1 }
      else
        match st.cscript with
        | some sc =>
          if cs ≠ sc then
            if ¬ canMerge sc cs then
              let st1 :=
                if pyStripTruthy st.ctext then
                  { st with segments := st.segments ++ [⟨st.ctext, sc, st.cstart, i⟩] }
                else st
              { st1 with ctext := [c], cscript := some cs, cstart := i }
            else
              { st with
                ctext := st.ctext ++ [c]
                cscript := if sc = ScriptType.NUMBER then some ScriptType.LATIN
                  else some sc }
          else { st with ctext := st.ctext ++ [c] }
        | none => { st with ctext := st.ctext ++ [c], cscript := some cs }
    segLoop rest (i + 1) st'

/-- ScriptSegmenter._post_merge inner fold. -/
def postMergeAux (current : Segment) : List Segment → List Segment
  | [] => [current]
  | nxt :: rest =>
    if canMerge current.script nxt.script ∧
       (nxt.start : ℤ) - (current.endPos : ℤ) ≤ 1 then
      postMergeAux
        ⟨current.text ++
           List.replicate ((nxt.start : ℤ) - (current.endPos : ℤ)).toNat ' ' ++
           nxt.text,
         ScriptType.LATIN, current.start, nxt.endPos⟩ rest
    else current :: postMergeAux nxt rest

/-- ScriptSegmenter._post_merge. -/
def postMerge : List Segment → List Segment
  | [] => []
  | s :: rest => postMergeAux s rest

/-- ScriptSegmenter.segment. -/
def segment (text : List Char) : List Segment :=
  if text.isEmpty then []
  else
    let st := segLoop text 0 ⟨[], [], none, 0⟩
    let segs :=
      if pyStripTruthy st.ctext then
        st.segments ++
          [⟨st.ctext, st.cscript.getD ScriptType.OTHER, st.cstart, text.length⟩]
      else st.segments
    postMerge segs

/-! ## Pipeline preset application (src/core/enhanced_pipeline.py,
step 6 of process) -/

/-- The preset-application loop of EnhancedPipeline.process:
preset_tags maps a token text to its preset (tag, confidence) when the
token carries one; the tagger result is replaced exactly when the
preset confidence is at least the computed confidence. -/
def applyPresets (preset_tags : String → Option (String × Frac))
    (tag_results : List TagResult) : List TagResult :=
  tag_results.map (fun result =>
    match preset_tags result.token with
    | some pc =>
      if Frac.le result.confidence pc.2 then
        { token := result.token, tags := [pc.1], primary_tag := pc.1
          confidence := pc.2, method := "preset"
          all_candidates := result.all_candidates }
      else result
    | none => result)

/-! ## Batch endpoint (src/api/routes/tokenize.py, tokenize_batch) -/

/-- One tagged token of the output contract. -/
structure TaggedTokenOut where
  token : String
  tags : List String
  confidence : Frac
deriving DecidableEq

/-- TokenizeResponse payload (original keyword, tokens, tagged tokens,
tag summary). -/
structure TokenizeResponse where
  original_keyword : String
  tokens : List String
  tagged_tokens : List TaggedTokenOut
  tag_summary : List (String × List String)
deriving DecidableEq

/-- The empty-result entry appended for a failing keyword. -/
def emptyResponse (k : String) : TokenizeResponse := ⟨k, [], [], []⟩

/-- tokenize_batch results loop: one pipeline.process call per
keyword; a failure (modelled as Except.error) is caught per item and
replaced by the empty-result entry, the remaining keywords continue. -/
def tokenize_batch (process : String → Except String TokenizeResponse)
    (keywords : List String) : List TokenizeResponse :=
  keywords.map (fun k =>
    match process k with
    | .ok r => r
    | .error _ => emptyResponse k)

/-! ## Claim-side predicates and concrete instances -/

/-- A bare number in the sense of the spec: at least one digit, at
most one decimal point, nothing else. -/
def isBareNumber (s : String) : Bool :=
  decide (s.data.count '.' ≤ 1) &&
  ! (s.data.filter (fun c => c ≠ '.')).isEmpty &&
  (s.data.filter (fun c => c ≠ '.')).all pyIsDigitChar

/-- The normalised slice of length l of the text from the given offset
is an inserted key of the trie (and fits inside the text). -/
def KeyPrefixAt (t : Trie) (text : List Char) (start l : Nat) : Prop :=
  0 < l ∧ start + l ≤ text.length ∧
  hasKeyFrom t.root (((text.map pyLowerChar).drop start).take l) = true

/-- A tagger environment with empty dictionaries and an inert Spanish
normalizer. -/
def envEmpty : TaggerEnv :=
  ⟨fun _ _ => false, fun _ _ => none, fun _ => [], fun _ => none⟩

/-- A tagger environment whose brands dictionary contains the single
entry "10.5cm" with confidence 0.8. -/
def envBrand : TaggerEnv :=
  ⟨fun cat w => cat = "brands" ∧ w = "10.5cm",
   fun cat w => if cat = "brands" ∧ w = "10.5cm" then some ⟨8, 10⟩ else none,
   fun _ => [], fun _ => none⟩

/-- Extractor holding the brand phrases "balance" and "new balance". -/
def exBalance : SpanExtractor :=
  (SpanExtractor.empty.add_phrase "balance" "品牌词" ⟨95, 100⟩
    SpanType.BRAND).add_phrase "new balance" "品牌词" ⟨95, 100⟩ SpanType.BRAND

/-- Extractor holding the phrases "one" and "nike". -/
def exNike : SpanExtractor :=
  (SpanExtractor.empty.add_phrase "one" "品牌词" ⟨95, 100⟩
    SpanType.BRAND).add_phrase "nike" "品牌词" ⟨95, 100⟩ SpanType.BRAND

/-- A small phrase merger table for concrete witnesses. -/
def pmDemo : PhraseMerger :=
  PhraseMerger.ofList [(["long", "sleeve"], "属性词", ⟨9, 10⟩)]

/-- The merged token produced by pmDemo for ["long", "sleeve"]. -/
def mtDemo : MergedToken :=
  { text := "long sleeve", original_tokens := ["long", "sleeve"]
    start_idx := 0, end_idx := 2, is_merged := true
    suggested_tag := some "属性词", confidence := ⟨9, 10⟩ }

/-- A demo pipeline oracle for the batch witness: fails on the keyword
"bad", succeeds elsewhere. -/
def processDemo (k : String) : Except String TokenizeResponse :=
  if k = "bad" then .error "boom"
  else .ok ⟨k, [k], [⟨k, ["属性词"], ⟨1, 2⟩⟩], [("属性词", [k])]⟩

/-- A demo tagger result and preset table for the preset witness. -/
def demoResult : TagResult :=
  { token := "nike", tags := ["属性词"], primary_tag := "属性词"
    confidence := ⟨1, 2⟩, method := "default" }

/-- Preset lookup carrying a brand preset of confidence 0.95 for
"nike". -/
def demoPresets (t : String) : Option (String × Frac) :=
  if t = "nike" then some ("品牌词", ⟨95, 100⟩) else none

/-- Invariant of the segmenter's single pass, at loop index i: an
empty accumulator means no pending segment and a start offset at the
cursor; a nonempty accumulator spans [cstart, i) with a non-space
script; accumulated characters are never whitespace; already emitted
segments are nonempty, non-space, ordered and all end before cstart. -/
def SegInv (st : SegState) (i : Nat) : Prop :=
  (st.ctext = [] → st.cscript = none ∧ st.cstart = i) ∧
  (st.ctext ≠ [] →
    st.cstart + st.ctext.length = i ∧ st.cscript ≠ none ∧
    st.cscript ≠ some ScriptType.SPACE) ∧
  (∀ c ∈ st.ctext, pyIsSpaceChar c = false) ∧
  (∀ s ∈ st.segments, s.start < s.endPos ∧ s.script ≠ ScriptType.SPACE ∧
    s.endPos ≤ st.cstart) ∧
  List.Chain' (fun a b => a.endPos ≤ b.start) st.segments

/-! # Theorems -/

/-! ## C4: preset override in the pipeline -/

/-- Claim C4: in the preset-application step of Pipeline.process, a
tagger result whose token carries a preset (tag, confidence) is
replaced by that preset exactly when the preset confidence is greater
than or equal to the tagger's computed confidence; a lower-confidence
preset leaves the tagger's result unchanged, and a token with no
preset is never touched. -/
theorem preset_override_iff_ge
    (preset_tags : String → Option (String × Frac)) (results : List TagResult)
    (i : Nat) (r : TagResult) (hr : results.get? i = some r) :
    (∀ pt pc, preset_tags r.token = some (pt, pc) →
      (Frac.le r.confidence pc = true →
        (applyPresets preset_tags results).get? i = some
          { token := r.token, tags := [pt], primary_tag := pt
            confidence := pc, method := "preset"
            all_candidates := r.all_candidates }) ∧
      (Frac.le r.confidence pc = false →
        (applyPresets preset_tags results).get? i = some r)) ∧
    (preset_tags r.token = none →
      (applyPresets preset_tags results).get? i = some r) := by
  constructor
  · intro pt pc hp
    constructor
    · intro hle
      simp only [applyPresets, List.get?_map, hr, Option.map_some']
      rw [hp]
      simp [hle]
    · intro hlt
      simp only [applyPresets, List.get?_map, hr, Option.map_some']
      rw [hp]
      simp [hlt]
  · intro hp
    simp only [applyPresets, List.get?_map, hr, Option.map_some']
    rw [hp]

/-- Witness for C4: the preset of confidence 0.95 overrides the
organic result of confidence 0.5 at a concrete input. -/
theorem preset_override_iff_ge_witness :
    (applyPresets demoPresets [demoResult]).get? 0 = some
      { token := "nike", tags := ["品牌词"], primary_tag := "品牌词"
        confidence := ⟨95, 100⟩, method := "preset", all_candidates := [] } := by
  have h := (preset_override_iff_ge demoPresets [demoResult] 0 demoResult rfl).1
    "品牌词" ⟨95, 100⟩ rfl
  exact h.1 (by decide)

/-! ## C3: batch failure isolation -/

/-- Claim C3: in the batch endpoint, a keyword whose processing raises
is caught per item: the batch of N keywords still yields N results,
the failing keyword's entry has empty tokens, tagged_tokens and
tag_summary, and every other keyword's result is exactly what the same
pipeline oracle gives for it, as in the batch with the failing keyword
absent. -/
theorem batch_failure_isolated
    (process : String → Except String TokenizeResponse)
    (ks₁ ks₂ : List String) (k : String) (e : String)
    (hfail : process k = .error e) :
    tokenize_batch process (ks₁ ++ k :: ks₂) =
      tokenize_batch process ks₁ ++ emptyResponse k :: tokenize_batch process ks₂ ∧
    (tokenize_batch process (ks₁ ++ k :: ks₂)).length = (ks₁ ++ k :: ks₂).length ∧
    tokenize_batch process (ks₁ ++ ks₂) =
      tokenize_batch process ks₁ ++ tokenize_batch process ks₂ ∧
    (emptyResponse k).original_keyword = k ∧
    (emptyResponse k).tokens = [] ∧
    (emptyResponse k).tagged_tokens = [] ∧
    (emptyResponse k).tag_summary = [] := by
  refine ⟨?_, ?_, ?_, rfl, rfl, rfl, rfl⟩
  · simp only [tokenize_batch, List.map_append, List.map_cons, hfail]
  · simp [tokenize_batch]
  · simp [tokenize_batch]

/-- Witness for C3: a concrete three-keyword batch where the middle
keyword fails. -/
theorem batch_failure_isolated_witness :
    tokenize_batch processDemo ["good", "bad", "ok"] =
      tokenize_batch processDemo ["good"] ++ emptyResponse "bad" ::
        tokenize_batch processDemo ["ok"] ∧
    (tokenize_batch processDemo ["good", "bad", "ok"]).length = 3 :=
  ⟨(batch_failure_isolated processDemo ["good"] ["ok"] "bad" "boom" rfl).1,
   (batch_failure_isolated processDemo ["good"] ["ok"] "bad" "boom" rfl).2.1⟩

/-! ## C9, C10: phrase merger -/

/-- When the downward length loop of merge finds nothing, no candidate
length up to the bound is in the phrase table. -/
theorem tryPhraseLens_none (m : PhraseMerger) (tokens : List String) (i : Nat) :
    ∀ k, tryPhraseLens m tokens i k = none →
      ∀ l, l ≤ k → l ≠ 0 →
        alookup ((pySlice tokens i (i + l)).map pyLower) m.phrases = none := by
  intro k
  induction k with
  | zero => intro _ l hl hl0; omega
  | succ k ih =>
    intro h l hl hl0
    rw [tryPhraseLens] at h
    cases hx : alookup ((pySlice tokens i (i + (k + 1))).map pyLower) m.phrases with
    | some v =>
      obtain ⟨tag, conf⟩ := v
      rw [hx] at h
      simp at h
    | none =>
      rw [hx] at h
      simp only at h
      rcases Nat.lt_or_ge l (k + 1) with hlt | hge
      · exact ih h l (by omega) hl0
      · have hleq : l = k + 1 := by omega
        rw [hleq]
        exact hx

/-- When the downward length loop of merge succeeds, it has found the
greatest candidate length present in the phrase table, together with
that length's table entry. -/
theorem tryPhraseLens_some (m : PhraseMerger) (tokens : List String) (i : Nat) :
    ∀ k l tag conf, tryPhraseLens m tokens i k = some (l, tag, conf) →
      l ≠ 0 ∧ l ≤ k ∧
      alookup ((pySlice tokens i (i + l)).map pyLower) m.phrases = some (tag, conf) ∧
      ∀ l', l < l' → l' ≤ k →
        alookup ((pySlice tokens i (i + l')).map pyLower) m.phrases = none := by
  intro k
  induction k with
  | zero => intro l tag conf h; simp [tryPhraseLens] at h
  | succ k ih =>
    intro l tag conf h
    rw [tryPhraseLens] at h
    cases hx : alookup ((pySlice tokens i (i + (k + 1))).map pyLower) m.phrases with
    | some v =>
      obtain ⟨tag', conf'⟩ := v
      rw [hx] at h
      simp only [Option.some.injEq, Prod.mk.injEq] at h
      obtain ⟨h1, h2, h3⟩ := h
      subst h1; subst h2; subst h3
      exact ⟨by omega, le_refl _, hx, fun l' hl' hl'2 => by omega⟩
    | none =>
      rw [hx] at h
      simp only at h
      obtain ⟨h0, hk, hlook, hmax⟩ := ih l tag conf h
      refine ⟨h0, by omega, hlook, ?_⟩
      intro l' hl' hl'2
      rcases Nat.lt_or_ge l' (k + 1) with hlt | hge
      · exact hmax l' hl' (by omega)
      · have : l' = k + 1 := by omega
        rw [this]
        exact hx

/-- The code's downward for-loop and the spec's greatest matching
length select the same step at every position. -/
theorem mergeLoop_eq_specLoop (m : PhraseMerger) (tokens : List String) :
    ∀ fuel i, mergeLoop m tokens fuel i = mergeSpecLoop m tokens fuel i := by
  intro fuel
  induction fuel with
  | zero => intro i; rfl
  | succ fuel ih =>
    intro i
    by_cases hi : i < tokens.length
    · cases hx : tryPhraseLens m tokens i (min m.max_phrase_len (tokens.length - i)) with
      | none =>
        have hmax : Nat.findGreatest
            (fun l => l ≠ 0 ∧
              (alookup ((pySlice tokens i (i + l)).map pyLower) m.phrases).isSome)
            (min m.max_phrase_len (tokens.length - i)) = 0 := by
          rw [Nat.findGreatest_eq_iff]
          refine ⟨Nat.zero_le _, fun hne => absurd rfl hne, ?_⟩
          intro n h0 hn hP
          rw [tryPhraseLens_none m tokens i _ hx n hn hP.1] at hP
          simp at hP
        rw [mergeLoop, mergeSpecLoop]
        simp only [hi, if_true, hx, hmax, if_pos rfl, ih]
      | some v =>
        obtain ⟨l, tag, conf⟩ := v
        obtain ⟨h0, hk, hlook, hmaxl⟩ := tryPhraseLens_some m tokens i _ l tag conf hx
        have hfg : Nat.findGreatest
            (fun l => l ≠ 0 ∧
              (alookup ((pySlice tokens i (i + l)).map pyLower) m.phrases).isSome)
            (min m.max_phrase_len (tokens.length - i)) = l := by
          rw [Nat.findGreatest_eq_iff]
          refine ⟨hk, fun _ => ⟨h0, by rw [hlook]; rfl⟩, ?_⟩
          intro n hln hnk hP
          rw [hmaxl n hln hnk] at hP
          simp at hP
        rw [mergeLoop, mergeSpecLoop]
        simp only [hi, if_true, hx, hfg, h0, if_neg h0, hlook, ih]
        simp
    · rw [mergeLoop, mergeSpecLoop]
      simp [hi]

/-- Claim C9: PhraseMerger.merge scans left to right trying candidate
lengths from min(K, remaining) down to 1, K being max_phrase_len, and
consumes the greatest length whose lower-cased token tuple is in the
table as a single MergedToken joining the source tokens with single
spaces (original casing preserved) and carrying the table's tag and
confidence; an unmatched token passes through as a length-1
MergedToken with no suggested tag.  Stated as equality of merge with
the spec-side formulation, together with the add_phrase maintenance of
K as the longest phrase length in the table. -/
theorem merge_eq_greedy_longest_spec (m : PhraseMerger) (tokens : List String) :
    m.merge tokens = mergeSpec m tokens ∧
    ∀ (m' : PhraseMerger) (key : List String) (tag : String) (conf : Frac),
      (m'.add_phrase key tag conf).max_phrase_len =
        max m'.max_phrase_len key.length := by
  constructor
  · exact mergeLoop_eq_specLoop m tokens tokens.length 0
  · intro m' key tag conf
    simp only [PhraseMerger.add_phrase, List.length_map]
    split <;> omega

/-- The merge loop never emits anything once the scan index passes the
end of the input. -/
theorem mergeLoop_past_end (m : PhraseMerger) (tokens : List String)
    (fuel i : Nat) (h : ¬ i < tokens.length) : mergeLoop m tokens fuel i = [] := by
  cases fuel with
  | zero => rfl
  | succ fuel => rw [mergeLoop]; simp [h]

/-- Full invariant of the merge loop: from index i (with enough fuel),
the produced MergedTokens tile [i, tokens.length) contiguously in
order, each carrying the corresponding input slice, with is_merged
exactly on chunks longer than one token. -/
theorem mergeLoop_inv (m : PhraseMerger) (tokens : List String) :
    ∀ fuel i, tokens.length ≤ i + fuel →
      (∀ mt ∈ mergeLoop m tokens fuel i,
        i ≤ mt.start_idx ∧ mt.start_idx < mt.end_idx ∧
        mt.end_idx ≤ tokens.length ∧
        mt.original_tokens = pySlice tokens mt.start_idx mt.end_idx ∧
        (mt.is_merged = true ↔ 1 < mt.end_idx - mt.start_idx)) ∧
      List.Chain' (fun a b => a.end_idx = b.start_idx) (mergeLoop m tokens fuel i) ∧
      ((mergeLoop m tokens fuel i).head?.map MergedToken.start_idx =
        if i < tokens.length then some i else none) ∧
      ((mergeLoop m tokens fuel i).getLast?.map MergedToken.end_idx =
        if i < tokens.length then some tokens.length else none) ∧
      (mergeLoop m tokens fuel i).flatMap MergedToken.original_tokens =
        tokens.drop i := by
  intro fuel
  induction fuel with
  | zero =>
    intro i hfuel
    have hni : ¬ i < tokens.length := by omega
    refine ⟨by simp [mergeLoop], by simp [mergeLoop], ?_, ?_, ?_⟩
    · simp [mergeLoop, hni]
    · simp [mergeLoop, hni]
    · simp only [mergeLoop, List.flatMap_nil]
      exact (List.drop_eq_nil_of_le (by omega)).symm
  | succ fuel ih =>
    intro i hfuel
    by_cases hi : i < tokens.length
    · have hstep : ∀ (len : Nat) (mt : MergedToken),
          1 ≤ len → i + len ≤ tokens.length →
          mt.start_idx = i → mt.end_idx = i + len →
          mt.original_tokens = pySlice tokens i (i + len) →
          (mt.is_merged = true ↔ 1 < len) →
          (∀ mt' ∈ mt :: mergeLoop m tokens fuel (i + len),
            i ≤ mt'.start_idx ∧ mt'.start_idx < mt'.end_idx ∧
            mt'.end_idx ≤ tokens.length ∧
            mt'.original_tokens = pySlice tokens mt'.start_idx mt'.end_idx ∧
            (mt'.is_merged = true ↔ 1 < mt'.end_idx - mt'.start_idx)) ∧
          List.Chain' (fun a b => a.end_idx = b.start_idx)
            (mt :: mergeLoop m tokens fuel (i + len)) ∧
          ((mt :: mergeLoop m tokens fuel (i + len)).head?.map
            MergedToken.start_idx = if i < tokens.length then some i else none) ∧
          ((mt :: mergeLoop m tokens fuel (i + len)).getLast?.map
            MergedToken.end_idx =
            if i < tokens.length then some tokens.length else none) ∧
          (mt :: mergeLoop m tokens fuel (i + len)).flatMap
            MergedToken.original_tokens = tokens.drop i := by
        intro len mt h1 hle hs he ho hm
        obtain ⟨ihA, ihB, ihC, ihD, ihE⟩ := ih (i + len) (by omega)
        have hflat : pySlice tokens i (i + len) ++ tokens.drop (i + len) =
            tokens.drop i := by
          have hdd : tokens.drop (i + len) = (tokens.drop i).drop len := by
            simp [List.drop_drop, Nat.add_comm]
          rw [hdd, pySlice]
          have hsub : i + len - i = len := by omega
          rw [hsub, List.take_append_drop]
        refine ⟨?_, ?_, ?_, ?_, ?_⟩
        · intro mt' hmt'
          rcases List.mem_cons.mp hmt' with hcase | hcase
          · subst hcase
            refine ⟨by omega, by rw [hs, he]; omega, by rw [he]; omega,
              by rw [ho, hs, he], ?_⟩
            rw [hm, hs, he]
            constructor <;> (intro hc; omega)
          · obtain ⟨a1, a2, a3, a4, a5⟩ := ihA mt' hcase
            exact ⟨by omega, a2, a3, a4, a5⟩
        · rw [List.chain'_cons']
          refine ⟨?_, ihB⟩
          intro b hb
          by_cases hil : i + len < tokens.length
          · rw [if_pos hil] at ihC
            cases hh : (mergeLoop m tokens fuel (i + len)).head? with
            | none => rw [hh] at hb; cases hb
            | some b' =>
              rw [hh] at hb ihC
              simp only [Option.map_some', Option.some.injEq] at ihC
              simp only [Option.mem_def, Option.some.injEq] at hb
              subst hb
              rw [he, ihC]
          · rw [mergeLoop_past_end m tokens fuel (i + len) hil] at hb
            cases hb
        · simp [hi, hs]
        · rw [if_pos hi]
          cases hrest : mergeLoop m tokens fuel (i + len) with
          | nil =>
            have hend : i + len = tokens.length := by
              by_contra hne
              have hil : i + len < tokens.length := by omega
              rw [if_pos hil, hrest] at ihC
              simp at ihC
            simp [List.getLast?, he, hend]
          | cons b rest' =>
            have hil : i + len < tokens.length := by
              by_contra hne
              rw [mergeLoop_past_end m tokens fuel (i + len) hne] at hrest
              cases hrest
            rw [if_pos hil, hrest] at ihD
            rw [List.getLast?_cons_cons]
            exact ihD
        · simp only [List.flatMap_cons, ihE, ho]
          exact hflat
      rw [mergeLoop]
      rw [if_pos hi]
      cases hx : tryPhraseLens m tokens i (min m.max_phrase_len (tokens.length - i)) with
      | some v =>
        obtain ⟨l, tag, conf⟩ := v
        obtain ⟨h0, hk, hlook, hmaxl⟩ := tryPhraseLens_some m tokens i _ l tag conf hx
        have hle2 : i + l ≤ tokens.length := by
          have hmr := min_le_right m.max_phrase_len (tokens.length - i)
          omega
        exact hstep l _ (by omega) hle2 rfl rfl rfl (by simp)
      | none =>
        have hps : pySlice tokens i (i + 1) = [tokens.getD i ""] := by
          simp [pySlice, Nat.add_sub_cancel_left, List.take_one, List.head?_drop,
            List.getElem?_eq_getElem hi, List.getD_eq_getElem?_getD]
        exact hstep 1 _ (le_refl 1) (by omega) rfl rfl hps.symm (by simp)
    · have hloop := mergeLoop_past_end m tokens (fuel + 1) i hi
      refine ⟨by simp [hloop], by simp [hloop], ?_, ?_, ?_⟩
      · simp [hloop, hi]
      · simp [hloop, hi]
      · simp only [hloop, List.flatMap_nil]
        exact (List.drop_eq_nil_of_le (by omega)).symm

/-- Claim C10: the MergedTokens returned by PhraseMerger.merge carry
consecutive contiguous index intervals that begin at 0, end at the
input length and tile it in order with start_idx < end_idx; each
result's original_tokens is the corresponding input slice (so
concatenating them reproduces the input), and is_merged holds exactly
when the chunk is longer than one token. -/
theorem merge_tiles_input (m : PhraseMerger) (tokens : List String) :
    (∀ mt ∈ m.merge tokens,
      mt.start_idx < mt.end_idx ∧ mt.end_idx ≤ tokens.length ∧
      mt.original_tokens = pySlice tokens mt.start_idx mt.end_idx ∧
      (mt.is_merged = true ↔ 1 < mt.end_idx - mt.start_idx)) ∧
    List.Chain' (fun a b => a.end_idx = b.start_idx) (m.merge tokens) ∧
    ((m.merge tokens).head?.map MergedToken.start_idx =
      if tokens.length = 0 then none else some 0) ∧
    ((m.merge tokens).getLast?.map MergedToken.end_idx =
      if tokens.length = 0 then none else some tokens.length) ∧
    (m.merge tokens).flatMap MergedToken.original_tokens = tokens := by
  obtain ⟨hA, hB, hC, hD, hE⟩ :=
    mergeLoop_inv m tokens tokens.length 0 (by omega)
  have hif : ∀ (α : Type) (x y : Option α),
      (if 0 < tokens.length then x else y) =
      if tokens.length = 0 then y else x := by
    intro α x y
    by_cases h : tokens.length = 0
    · simp [h]
    · simp [h, Nat.pos_of_ne_zero h]
  refine ⟨?_, hB, ?_, ?_, ?_⟩
  · intro mt hmt
    obtain ⟨_, a2, a3, a4, a5⟩ := hA mt hmt
    exact ⟨a2, a3, a4, a5⟩
  · rw [PhraseMerger.merge] at *
    rw [hC, hif]
  · rw [PhraseMerger.merge] at *
    rw [hD, hif]
  · rw [PhraseMerger.merge] at *
    rw [hE, List.drop_zero]

/-! ## C5, C6: span extractor trie -/

/-- A carried best match only grows along the walk: starting the walk
with a recorded match always yields a result at least as long. -/
theorem searchStep_grows :
    ∀ (rest : List Char) (node : TrieNode) (pos e₀ : Nat) (d₀ : Option SpanData),
      e₀ ≤ pos →
      ∃ e d, searchStep node rest pos (some (e₀, d₀)) = some (e, d) ∧
        e₀ ≤ e ∧ e ≤ pos + rest.length := by
  intro rest
  induction rest with
  | nil =>
    intro node pos e₀ d₀ hb
    exact ⟨e₀, d₀, rfl, le_refl _, by omega⟩
  | cons c cs ih =>
    intro node pos e₀ d₀ hb
    rw [searchStep]
    cases hc : alookup c node.children with
    | none => exact ⟨e₀, d₀, rfl, le_refl _, by simp; omega⟩
    | some child =>
      dsimp only
      by_cases he : child.is_end = true
      · rw [if_pos he]
        obtain ⟨e, d, hstep, hge, hle⟩ :=
          ih child (pos + 1) (pos + 1) child.data (le_refl _)
        exact ⟨e, d, hstep, by omega, by simp; omega⟩
      · rw [if_neg he]
        obtain ⟨e, d, hstep, hge, hle⟩ := ih child (pos + 1) e₀ d₀ (by omega)
        exact ⟨e, d, hstep, hge, by simp; omega⟩

/-- Soundness of the walk: a returned match is either the carried one
or ends at an inserted key reached from the node. -/
theorem searchStep_sound :
    ∀ (rest : List Char) (node : TrieNode) (pos : Nat)
      (best : Option (Nat × Option SpanData)) (e : Nat) (d : Option SpanData),
      searchStep node rest pos best = some (e, d) →
      best = some (e, d) ∨
        (pos < e ∧ e ≤ pos + rest.length ∧
          hasKeyFrom node (rest.take (e - pos)) = true) := by
  intro rest
  induction rest with
  | nil => intro node pos best e d h; exact .inl h
  | cons c cs ih =>
    intro node pos best e d h
    rw [searchStep] at h
    cases hc : alookup c node.children with
    | none => rw [hc] at h; exact .inl h
    | some child =>
      rw [hc] at h
      dsimp only at h
      rcases ih child (pos + 1) _ e d h with hbest | ⟨h1, h2, h3⟩
      · split at hbest
        case isTrue hend =>
          rw [Option.some.injEq, Prod.mk.injEq] at hbest
          obtain ⟨he1, _⟩ := hbest
          subst he1
          refine .inr ⟨by omega, by simp, ?_⟩
          have hsub : pos + 1 - pos = 1 := by omega
          rw [hsub]
          show hasKeyFrom node (c :: List.take 0 cs) = true
          rw [List.take_zero]
          simp only [hasKeyFrom, hc]
          exact hend
        case isFalse => exact .inl hbest
      · refine .inr ⟨by omega, by simp; omega, ?_⟩
        have hto : (c :: cs).take (e - pos) = c :: cs.take (e - pos - 1) := by
          cases hep : e - pos with
          | zero => exfalso; omega
          | succ n => rw [List.take_succ_cons]; simp
        rw [hto]
        simp only [hasKeyFrom, hc]
        have h5 : e - pos - 1 = e - (pos + 1) := by omega
        rw [h5]
        exact h3

/-- Completeness of the walk: an inserted key of positive length l
reachable from the node as a prefix of the remaining text forces a
returned match of length at least l. -/
theorem searchStep_complete :
    ∀ (rest : List Char) (l : Nat) (node : TrieNode) (pos : Nat)
      (best : Option (Nat × Option SpanData)),
      0 < l → l ≤ rest.length → hasKeyFrom node (rest.take l) = true →
      ∃ e d, searchStep node rest pos best = some (e, d) ∧ pos + l ≤ e := by
  intro rest
  induction rest with
  | nil => intro l node pos best h0 hl _; simp at hl; omega
  | cons c cs ih =>
    intro l node pos best h0 hl hk
    have hto : (c :: cs).take l = c :: cs.take (l - 1) := by
      cases hep : l with
      | zero => exfalso; omega
      | succ n => rw [List.take_succ_cons]; simp
    rw [hto, hasKeyFrom] at hk
    cases hc : alookup c node.children with
    | none => rw [hc] at hk; cases hk
    | some child =>
      rw [hc] at hk
      rw [searchStep, hc]
      dsimp only
      by_cases hone : l = 1
      · subst hone
        have hend : child.is_end = true := by
          simpa [hasKeyFrom] using hk
        rw [if_pos hend]
        obtain ⟨e, d, hstep, hge, _⟩ :=
          searchStep_grows cs child (pos + 1) (pos + 1) child.data (le_refl _)
        exact ⟨e, d, hstep, by omega⟩
      · obtain ⟨e, d, hstep, hge⟩ :=
          ih (l - 1) child (pos + 1) _ (by omega) (by simp at hl; omega) hk
        exact ⟨e, d, hstep, by omega⟩

/-- Claim C5: Trie.search_longest returns the longest inserted key
that is a prefix of the text at the given offset (sound, maximal, and
complete: present whenever any key matches), and in particular the
extractor with both "balance" and "new balance" in its dictionary
yields from "new balance shoes" exactly the single span "new balance"
(never a span for "balance" alone). -/
theorem trie_longest_match (t : Trie) (text : List Char) (start : Nat) :
    (∀ m e d, t.search_longest text start = some (m, e, d) →
      m = pySlice text start e ∧ KeyPrefixAt t text start (e - start) ∧
      ∀ l, KeyPrefixAt t text start l → l ≤ e - start) ∧
    (∀ l, KeyPrefixAt t text start l → (t.search_longest text start).isSome) ∧
    SpanExtractor.extract exBalance "new balance shoes".data =
      ([⟨0, 11, "new balance", SpanType.BRAND, "品牌词", ⟨95, 100⟩⟩],
        [(0, 11)]) := by
  have hlen : ((text.map pyLowerChar).drop start).length = text.length - start := by
    simp
  refine ⟨?_, ?_, by decide⟩
  · intro m e d h
    rw [Trie.search_longest] at h
    cases hs : searchStep t.root ((text.map pyLowerChar).drop start) start none with
    | none => rw [hs] at h; cases h
    | some p =>
      obtain ⟨e', d'⟩ := p
      rw [hs] at h
      rw [Option.some.injEq, Prod.mk.injEq, Prod.mk.injEq] at h
      obtain ⟨hm, he, hd⟩ := h
      subst hm
      subst he
      subst hd
      rcases searchStep_sound _ t.root start none e' d' hs with hno | ⟨h1, h2, h3⟩
      · cases hno
      · rw [hlen] at h2
        refine ⟨rfl, ⟨by omega, by omega, h3⟩, ?_⟩
        intro l ⟨hl0, hll, hlk⟩
        obtain ⟨e2, d2, hstep2, hge2⟩ :=
          searchStep_complete ((text.map pyLowerChar).drop start) l t.root start
            none hl0 (by rw [hlen]; omega) hlk
        rw [hs] at hstep2
        rw [Option.some.injEq, Prod.mk.injEq] at hstep2
        have he2 := hstep2.1
        omega
  · intro l ⟨hl0, hll, hlk⟩
    rw [Trie.search_longest]
    obtain ⟨e2, d2, hstep2, _⟩ :=
      searchStep_complete ((text.map pyLowerChar).drop start) l t.root start
        none hl0 (by rw [hlen]; omega) hlk
    rw [hstep2]
    rfl

/-- Witness for C5: the longest-match property applied to the
two-entry balance trie at the concrete text, offset 0. -/
theorem trie_longest_match_witness :
    KeyPrefixAt exBalance.latin_trie "new balance shoes".data 0 11 ∧
    ∀ l, KeyPrefixAt exBalance.latin_trie "new balance shoes".data 0 l → l ≤ 11 := by
  have h := (trie_longest_match exBalance.latin_trie "new balance shoes".data 0).1
    "new balance".data 11 (some ⟨"品牌词", ⟨95, 100⟩, SpanType.BRAND⟩) (by decide)
  refine ⟨?_, ?_⟩
  · have := h.2.1
    simpa using this
  · intro l hl
    have := h.2.2 l hl
    omega

/-- Claim C6: a Latin-trie match is accepted only when the characters
just before the start and just after the end are not ASCII
alphanumerics, and in particular extracting from "someone bought a
nike shirt" with "one" and "nike" in the dictionary produces exactly
the span for "nike" - never a span for the "one" inside "someone". -/
theorem latin_word_boundary (tr : Trie) (text : List Char) (start : Nat) :
    (∀ m e d,
      matchLatinWithBoundary tr text (text.map pyLowerChar) start = some (m, e, d) →
      (start = 0 ∨
        pyIsAsciiAlnum ((text.map pyLowerChar).getD (start - 1) ' ') = false) ∧
      (text.length ≤ e ∨
        pyIsAsciiAlnum ((text.map pyLowerChar).getD e ' ') = false)) ∧
    SpanExtractor.extract exNike "someone bought a nike shirt".data =
      ([⟨17, 21, "nike", SpanType.BRAND, "品牌词", ⟨95, 100⟩⟩], [(17, 21)]) := by
  refine ⟨?_, by decide⟩
  intro m e d h
  rw [matchLatinWithBoundary] at h
  split at h
  · cases h
  · rename_i hpre
    constructor
    · by_cases h0 : start = 0
      · exact .inl h0
      · refine .inr ?_
        by_cases ha : pyIsAsciiAlnum ((text.map pyLowerChar).getD (start - 1) ' ') = true
        · exact absurd ⟨by omega, ha⟩ hpre
        · simpa using ha
    · cases hs : tr.search_longest (text.map pyLowerChar) start with
      | none => rw [hs] at h; cases h
      | some p =>
        obtain ⟨m', e', d'⟩ := p
        rw [hs] at h
        dsimp only at h
        split at h
        · cases h
        · rename_i hpost
          rw [Option.some.injEq, Prod.mk.injEq, Prod.mk.injEq] at h
          obtain ⟨_, he, _⟩ := h
          subst he
          by_cases hlt : e' < text.length
          · refine .inr ?_
            by_cases ha : pyIsAsciiAlnum ((text.map pyLowerChar).getD e' ' ') = true
            · exact absurd ⟨hlt, ha⟩ hpost
            · simpa using ha
          · exact .inl (by omega)

/-- Witness for C10 at a concrete merger and token list: the output
chunks reproduce the input and the merged chunk has a nonempty
interval. -/
theorem merge_tiles_input_witness :
    (pmDemo.merge ["long", "sleeve", "shirt"]).flatMap
      MergedToken.original_tokens = ["long", "sleeve", "shirt"] ∧
    mtDemo.start_idx < mtDemo.end_idx ∧
    mtDemo.original_tokens =
      pySlice ["long", "sleeve", "shirt"] mtDemo.start_idx mtDemo.end_idx ∧
    (mtDemo.is_merged = true ↔ 1 < mtDemo.end_idx - mtDemo.start_idx) :=
  ⟨(merge_tiles_input pmDemo ["long", "sleeve", "shirt"]).2.2.2.2,
   ((merge_tiles_input pmDemo ["long", "sleeve", "shirt"]).1 mtDemo
     (by decide)).1,
   ((merge_tiles_input pmDemo ["long", "sleeve", "shirt"]).1 mtDemo
     (by decide)).2.2.1,
   ((merge_tiles_input pmDemo ["long", "sleeve", "shirt"]).1 mtDemo
     (by decide)).2.2.2⟩

/-! ## C8: script segmenter -/

/-- A member of getLast? is a member of the list. -/
theorem mem_of_mem_getLast? {α : Type} {l : List α} {x : α}
    (h : x ∈ l.getLast?) : x ∈ l := by
  obtain ⟨hne, hx⟩ := List.mem_getLast?_eq_getLast h
  rw [hx]
  exact List.getLast_mem hne

/-- dropWhile is the identity when the predicate fails on every
element. -/
theorem dropWhile_of_none {p : Char → Bool} :
    ∀ l : List Char, (∀ c ∈ l, p c = false) → l.dropWhile p = l := by
  intro l h
  cases l with
  | nil => rfl
  | cons a as => simp [List.dropWhile, h a (by simp)]

/-- Stripping a nonempty run of non-whitespace characters leaves it
truthy. -/
theorem stripTruthy_of_no_space (l : List Char) (hne : l ≠ [])
    (hns : ∀ c ∈ l, pyIsSpaceChar c = false) : pyStripTruthy l = true := by
  have h1 : l.dropWhile pyIsSpaceChar = l := dropWhile_of_none l hns
  have h2 : l.reverse.dropWhile pyIsSpaceChar = l.reverse :=
    dropWhile_of_none l.reverse (by intro c hc; exact hns c (by simpa using hc))
  simp [pyStripTruthy, pyStrip, h1, h2, hne]

/-- A truthy accumulator is nonempty. -/
theorem ne_nil_of_stripTruthy (l : List Char) (h : pyStripTruthy l = true) :
    l ≠ [] := by
  intro hnil
  rw [hnil] at h
  simp [pyStripTruthy, pyStrip] at h

/-- A character whose script class is not SPACE is not whitespace. -/
theorem not_space_char (c : Char) (h : getScriptType c ≠ ScriptType.SPACE) :
    pyIsSpaceChar c = false := by
  by_contra hc
  rw [Bool.not_eq_false] at hc
  exact h (by simp [getScriptType, hc])

/-- The segmenter pass preserves the loop invariant. -/
theorem segLoop_inv : ∀ (chars : List Char) (i : Nat) (st : SegState),
    SegInv st i → SegInv (segLoop chars i st) (i + chars.length) := by
  intro chars
  induction chars with
  | nil => intro i st h; simpa [segLoop] using h
  | cons c rest ih =>
    intro i st h
    obtain ⟨hE, hN, hC, hS, hChain⟩ := h
    rw [segLoop]
    have hlen : i + (c :: rest).length = (i + 1) + rest.length := by
      simp
      omega
    rw [hlen]
    apply ih
    dsimp only
    by_cases hsp : getScriptType c = ScriptType.SPACE
    · rw [if_pos hsp]
      by_cases htr : pyStripTruthy st.ctext = true
      · rw [if_pos htr]
        have hne : st.ctext ≠ [] := ne_nil_of_stripTruthy _ htr
        have hlp : 0 < st.ctext.length := List.length_pos.mpr hne
        obtain ⟨hlen2, hscne, hscns⟩ := hN hne
        refine ⟨fun _ => ⟨rfl, rfl⟩, fun hc => absurd rfl hc, by simp, ?_, ?_⟩
        · intro s hs
          rcases List.mem_append.mp hs with hold | hnew
          · obtain ⟨a1, a2, a3⟩ := hS s hold
            exact ⟨a1, a2, by dsimp only; omega⟩
          · rw [List.mem_singleton] at hnew
            subst hnew
            obtain ⟨sc, hsc⟩ := Option.ne_none_iff_exists'.mp hscne
            refine ⟨by dsimp only; omega, ?_, by dsimp only; omega⟩
            dsimp only
            rw [hsc, Option.getD_some]
            intro hcontra
            exact hscns (by rw [hsc, hcontra])
        · rw [List.chain'_append]
          refine ⟨hChain, List.chain'_singleton _, ?_⟩
          intro x hx y hy
          rw [List.head?_cons, Option.mem_def, Option.some.injEq] at hy
          subst hy
          obtain ⟨_, _, a3⟩ := hS x (mem_of_mem_getLast? hx)
          dsimp only
          omega
      · rw [if_neg htr]
        have hnil : st.ctext = [] := by
          by_contra hne
          exact htr (stripTruthy_of_no_space _ hne hC)
        obtain ⟨hscn, hcs⟩ := hE hnil
        refine ⟨fun _ => ⟨hscn, rfl⟩, fun hc => absurd hnil hc, hC, ?_, hChain⟩
        intro s hs
        obtain ⟨a1, a2, a3⟩ := hS s hs
        exact ⟨a1, a2, by dsimp only; omega⟩
    · rw [if_neg hsp]
      cases hsc : st.cscript with
      | none =>
        have hnil : st.ctext = [] := by
          by_contra hne
          exact (hN hne).2.1 hsc
        have hcs : st.cstart = i := (hE hnil).2
        dsimp only
        refine ⟨by simp, ?_, ?_, ?_, hChain⟩
        · intro _
          refine ⟨by simp [hnil, hcs], by simp, ?_⟩
          intro hcontra
          exact hsp (Option.some.inj hcontra)
        · intro x hx
          rw [hnil] at hx
          simp only [List.nil_append, List.mem_singleton] at hx
          subst hx
          exact not_space_char _ hsp
        · intro s hs
          obtain ⟨a1, a2, a3⟩ := hS s hs
          exact ⟨a1, a2, a3⟩
      | some sc =>
        have hne : st.ctext ≠ [] := by
          intro hnil
          rw [(hE hnil).1] at hsc
          cases hsc
        have hlp : 0 < st.ctext.length := List.length_pos.mpr hne
        obtain ⟨hlen2, _, hscns⟩ := hN hne
        have hscns2 : sc ≠ ScriptType.SPACE := by
          intro hcontra
          rw [hsc, hcontra] at hscns
          exact hscns rfl
        dsimp only
        by_cases hdiff : getScriptType c ≠ sc
        · rw [if_pos hdiff]
          by_cases hmerge : canMerge sc (getScriptType c) = true
          · rw [if_neg (by simp [hmerge])]
            refine ⟨by simp, ?_, ?_, ?_, hChain⟩
            · intro _
              refine ⟨by simp; omega, ?_, ?_⟩
              · dsimp only
                split <;> simp
              · dsimp only
                split
                · simp
                · intro hcontra
                  exact hscns2 (Option.some.inj hcontra)
            · intro x hx
              rcases List.mem_append.mp hx with hold | hnew
              · exact hC x hold
              · rw [List.mem_singleton] at hnew
                subst hnew
                exact not_space_char _ hsp
            · intro s hs
              obtain ⟨a1, a2, a3⟩ := hS s hs
              exact ⟨a1, a2, a3⟩
          · rw [if_pos (by simpa using hmerge)]
            have htr : pyStripTruthy st.ctext = true :=
              stripTruthy_of_no_space _ hne hC
            rw [if_pos htr]
            refine ⟨by simp, ?_, ?_, ?_, ?_⟩
            · intro _
              refine ⟨by simp, by simp, ?_⟩
              intro hcontra
              exact hsp (Option.some.inj hcontra)
            · intro x hx
              rw [List.mem_singleton] at hx
              subst hx
              exact not_space_char _ hsp
            · intro s hs
              rcases List.mem_append.mp hs with hold | hnew
              · obtain ⟨a1, a2, a3⟩ := hS s hold
                exact ⟨a1, a2, by dsimp only; omega⟩
              · rw [List.mem_singleton] at hnew
                subst hnew
                refine ⟨by dsimp only; omega, by dsimp only; exact hscns2,
                  by dsimp only; omega⟩
            · rw [List.chain'_append]
              refine ⟨hChain, List.chain'_singleton _, ?_⟩
              intro x hx y hy
              rw [List.head?_cons, Option.mem_def, Option.some.injEq] at hy
              subst hy
              obtain ⟨_, _, a3⟩ := hS x (mem_of_mem_getLast? hx)
              dsimp only
              omega
        · rw [if_neg hdiff]
          refine ⟨by simp, ?_, ?_, ?_, hChain⟩
          · intro _
            refine ⟨by simp; omega, by simp, ?_⟩
            intro hcontra
            exact hscns2 (Option.some.inj hcontra)
          · intro x hx
            rcases List.mem_append.mp hx with hold | hnew
            · exact hC x hold
            · rw [List.mem_singleton] at hnew
              subst hnew
              exact not_space_char _ hsp
          · intro s hs
            obtain ⟨a1, a2, a3⟩ := hS s hs
            exact ⟨a1, a2, a3⟩

/-- _post_merge preserves the per-segment and ordering facts: starting
from a stated head, the output segments are nonempty and non-space,
remain chained, and the first output keeps the head's start offset. -/
theorem postMergeAux_spec :
    ∀ (segs : List Segment) (current : Segment),
      current.start < current.endPos → current.script ≠ ScriptType.SPACE →
      (∀ s ∈ segs, s.start < s.endPos ∧ s.script ≠ ScriptType.SPACE) →
      List.Chain' (fun a b => a.endPos ≤ b.start) (current :: segs) →
      (∀ s ∈ postMergeAux current segs,
        s.start < s.endPos ∧ s.script ≠ ScriptType.SPACE) ∧
      List.Chain' (fun a b => a.endPos ≤ b.start) (postMergeAux current segs) ∧
      (postMergeAux current segs).head?.map Segment.start = some current.start := by
  intro segs
  induction segs with
  | nil =>
    intro current h1 h2 _ _
    refine ⟨?_, ?_, ?_⟩
    · intro s hs
      rw [postMergeAux, List.mem_singleton] at hs
      subst hs
      exact ⟨h1, h2⟩
    · rw [postMergeAux]
      exact List.chain'_singleton _
    · rw [postMergeAux]
      rfl
  | cons nxt rest ih =>
    intro current h1 h2 hall hchain
    obtain ⟨hcn, hchain2⟩ := List.chain'_cons.mp hchain
    obtain ⟨hn1, hn2⟩ := hall nxt (by simp)
    rw [postMergeAux]
    by_cases hm : (canMerge current.script nxt.script = true) ∧
        ((nxt.start : ℤ) - (current.endPos : ℤ) ≤ 1)
    · rw [if_pos hm]
      obtain ⟨hh, hrest⟩ := List.chain'_cons'.mp hchain2
      have hih := ih
        ⟨current.text ++
          List.replicate ((nxt.start : ℤ) - (current.endPos : ℤ)).toNat ' ' ++
          nxt.text, ScriptType.LATIN, current.start, nxt.endPos⟩
        (by dsimp only; omega) (by dsimp only; intro hcontra; cases hcontra)
        (fun s hs => hall s (by simp [hs]))
        (by
          rw [List.chain'_cons']
          refine ⟨?_, hrest⟩
          intro y hy
          have := hh y hy
          dsimp only
          omega)
      exact ⟨hih.1, hih.2.1, hih.2.2⟩
    · rw [if_neg hm]
      have hih := ih nxt hn1 hn2 (fun s hs => hall s (by simp [hs])) hchain2
      refine ⟨?_, ?_, by simp⟩
      · intro s hs
        rcases List.mem_cons.mp hs with h | h
        · subst h
          exact ⟨h1, h2⟩
        · exact hih.1 s h
      · rw [List.chain'_cons']
        refine ⟨?_, hih.2.1⟩
        intro y hy
        have hh := hih.2.2
        cases hh2 : (postMergeAux nxt rest).head? with
        | none => rw [hh2] at hy; cases hy
        | some b =>
          rw [hh2] at hy hh
          simp only [Option.map_some', Option.some.injEq] at hh
          rw [Option.mem_def, Option.some.injEq] at hy
          subst hy
          rw [hh]
          exact hcn

/-- _post_merge preserves the segment facts. -/
theorem postMerge_spec (segs : List Segment)
    (hall : ∀ s ∈ segs, s.start < s.endPos ∧ s.script ≠ ScriptType.SPACE)
    (hchain : List.Chain' (fun a b => a.endPos ≤ b.start) segs) :
    (∀ s ∈ postMerge segs,
      s.start < s.endPos ∧ s.script ≠ ScriptType.SPACE) ∧
    List.Chain' (fun a b => a.endPos ≤ b.start) (postMerge segs) := by
  cases segs with
  | nil => exact ⟨by simp [postMerge], by simp [postMerge]⟩
  | cons a rest =>
    obtain ⟨h1, h2⟩ := hall a (by simp)
    have h := postMergeAux_spec rest a h1 h2
      (fun s hs => hall s (by simp [hs])) hchain
    exact ⟨h.1, h.2.1⟩

/-- Claim C8 (amended): ScriptSegmenter.segment never emits a SPACE
segment - whitespace-only runs are consumed, never emitted - and the
emitted segments are non-overlapping with strictly increasing [start,
end) offsets.  (The original claim also said punctuation-only runs are
dropped; they are not - see the counterexample theorem.) -/
theorem segment_no_space_and_ordered (text : List Char) :
    (∀ s ∈ segment text, s.script ≠ ScriptType.SPACE) ∧
    (∀ s ∈ segment text, s.start < s.endPos) ∧
    List.Chain' (fun a b => a.endPos ≤ b.start) (segment text) := by
  rw [segment]
  by_cases hempty : text.isEmpty = true
  · rw [if_pos hempty]
    exact ⟨by simp, by simp, by simp⟩
  · rw [if_neg hempty]
    dsimp only
    have hinv0 : SegInv ⟨[], [], none, 0⟩ 0 :=
      ⟨fun _ => ⟨rfl, rfl⟩, fun hc => absurd rfl hc, by simp, by simp, by simp⟩
    have hinv := segLoop_inv text 0 ⟨[], [], none, 0⟩ hinv0
    rw [Nat.zero_add] at hinv
    obtain ⟨hE, hN, hC, hS, hChain⟩ := hinv
    by_cases htr : pyStripTruthy (segLoop text 0 ⟨[], [], none, 0⟩).ctext = true
    · rw [if_pos htr]
      have hne := ne_nil_of_stripTruthy _ htr
      have hlp : 0 < (segLoop text 0 ⟨[], [], none, 0⟩).ctext.length :=
        List.length_pos.mpr hne
      obtain ⟨hlen2, hscne, hscns⟩ := hN hne
      obtain ⟨sc, hsc⟩ := Option.ne_none_iff_exists'.mp hscne
      have hall : ∀ s ∈ (segLoop text 0 ⟨[], [], none, 0⟩).segments ++
          [⟨(segLoop text 0 ⟨[], [], none, 0⟩).ctext,
            (segLoop text 0 ⟨[], [], none, 0⟩).cscript.getD ScriptType.OTHER,
            (segLoop text 0 ⟨[], [], none, 0⟩).cstart, text.length⟩],
          s.start < s.endPos ∧ s.script ≠ ScriptType.SPACE := by
        intro s hs
        rcases List.mem_append.mp hs with hold | hnew
        · obtain ⟨a1, a2, _⟩ := hS s hold
          exact ⟨a1, a2⟩
        · rw [List.mem_singleton] at hnew
          subst hnew
          refine ⟨by dsimp only; omega, ?_⟩
          dsimp only
          rw [hsc, Option.getD_some]
          intro hcontra
          rw [hsc, hcontra] at hscns
          exact hscns rfl
      have hchain2 : List.Chain' (fun a b => a.endPos ≤ b.start)
          ((segLoop text 0 ⟨[], [], none, 0⟩).segments ++
          [⟨(segLoop text 0 ⟨[], [], none, 0⟩).ctext,
            (segLoop text 0 ⟨[], [], none, 0⟩).cscript.getD ScriptType.OTHER,
            (segLoop text 0 ⟨[], [], none, 0⟩).cstart, text.length⟩]) := by
        rw [List.chain'_append]
        refine ⟨hChain, List.chain'_singleton _, ?_⟩
        intro x hx y hy
        rw [List.head?_cons, Option.mem_def, Option.some.injEq] at hy
        subst hy
        obtain ⟨_, _, a3⟩ := hS x (mem_of_mem_getLast? hx)
        dsimp only
        omega
      have h := postMerge_spec _ hall hchain2
      exact ⟨fun s hs => (h.1 s hs).2, fun s hs => (h.1 s hs).1, h.2⟩
    · rw [if_neg htr]
      have h := postMerge_spec _ (fun s hs => ⟨(hS s hs).1, (hS s hs).2.1⟩) hChain
      exact ⟨fun s hs => (h.1 s hs).2, fun s hs => (h.1 s hs).1, h.2⟩

/-- Counterexample to C8 as stated: a punctuation-only input IS
emitted as a PUNCT segment (the code only drops whitespace runs). -/
theorem segment_emits_punct_counterexample :
    segment "!".data = [⟨['!'], ScriptType.PUNCT, 0, 1⟩] ∧
    ∃ s ∈ segment "!".data, s.script = ScriptType.PUNCT := by
  constructor
  · decide
  · refine ⟨⟨['!'], ScriptType.PUNCT, 0, 1⟩, by decide, rfl⟩

/-- Witness for C8 (amended) at a concrete input: "a b" yields one
merged Latin segment, not a SPACE segment, with a nonempty interval. -/
theorem segment_no_space_and_ordered_witness :
    segment "a b".data = [⟨['a', ' ', 'b'], ScriptType.LATIN, 0, 3⟩] ∧
    (⟨['a', ' ', 'b'], ScriptType.LATIN, 0, 3⟩ : Segment).script ≠
      ScriptType.SPACE ∧
    (⟨['a', ' ', 'b'], ScriptType.LATIN, 0, 3⟩ : Segment).start <
      (⟨['a', ' ', 'b'], ScriptType.LATIN, 0, 3⟩ : Segment).endPos :=
  ⟨by decide,
   (segment_no_space_and_ordered "a b".data).1 _ (by decide),
   (segment_no_space_and_ordered "a b".data).2.1 _ (by decide)⟩

/-! ## C7, C2, C1: the tagger -/

/-- _create_result always reports the token it was given. -/
theorem createResult_token (t : String) (cs : List TagCandidate) :
    (createResult t cs).token = t := by
  cases cs <;> rfl

/-- The context_boost table has no entry whose current tag is the size
tag, so a forced numeric-unit result receives no further adjustment. -/
theorem context_boost_size_none (pt : String) :
    alookup (pt, "尺寸词") context_boost = none := by
  simp [alookup, context_boost]

/-- The per-position step of Stage C keeps each result's token. -/
theorem applyContext_map_token (results : List TagResult)
    (tokens : List String) :
    (applyContextAdjustments results tokens).map TagResult.token =
      results.map TagResult.token := by
  rw [applyContextAdjustments]
  by_cases h : results.length < 2
  · rw [if_pos h]
  · rw [if_neg h]
    apply List.ext_getElem?
    intro i
    by_cases hi : i < results.length
    · simp only [List.getElem?_map, List.getElem?_range hi,
        List.getElem?_eq_getElem hi, Option.map_some']
      congr 1
      have hgd : results.getD i dummyResult = results[i] := by
        rw [List.getD_eq_getElem?_getD, List.getElem?_eq_getElem hi]
        rfl
      rw [hgd]
      by_cases hforce : 0 < i ∧ dropDotsIsDigit (tokens.getD (i - 1) "") = true ∧
          unit_words.contains (pyLower (tokens.getD i "")) = true
      · rw [if_pos hforce]
        repeat' split
        all_goals rfl
      · rw [if_neg hforce]
        repeat' split
        all_goals rfl
    · have h1 : results.length ≤ i := by omega
      simp only [List.getElem?_map]
      rw [List.getElem?_eq_none (by simpa using h1), List.getElem?_eq_none h1]
      rfl

/-- Stage C at a numeric-unit position: when the previous raw token
passes the bare-number test of the code and the current lower-cased
token is a unit word, the i-th result is the forced size result. -/
theorem applyContext_forced (results : List TagResult) (tokens : List String)
    (h2 : ¬ results.length < 2) (i : Nat) (hi0 : 0 < i)
    (hi : i < results.length)
    (hnum : dropDotsIsDigit (tokens.getD (i - 1) "") = true)
    (hunit : unit_words.contains (pyLower (tokens.getD i "")) = true) :
    (applyContextAdjustments results tokens).get? i =
      some (forceSizeResult (results.getD i dummyResult)) := by
  rw [applyContextAdjustments, if_neg h2]
  rw [List.get?_eq_getElem?, List.getElem?_map, List.getElem?_range hi]
  simp only [Option.map_some']
  congr 1
  simp only [List.getD_eq_getElem?_getD] at hnum hunit
  have hunit2 : pyLower (tokens[i]?.getD "") ∈ unit_words := by
    simpa using hunit
  simp [hi0, hnum, hunit2, forceSizeResult, context_boost_size_none,
    Frac.nonzero, Frac.zero]

/-- Claim C7: in EnhancedTagger.tag, for a token list of length at
least two (after the Japanese merge step), whenever the previous raw
token is a bare number (digits with an optional decimal point) and the
current lower-cased token is a known unit word, the current token's
final result is forced to exactly tags ["尺寸词"], confidence 0.95 and
method "context", regardless of its Stage-B candidates. -/
theorem numeric_unit_forces_size (env : TaggerEnv) (tokens : List String)
    (ctx lang : Option String) (toks : List String)
    (htoks : toks =
      (if isJapaneseHint lang then mergeJapaneseCompounds env tokens
       else tokens))
    (h2 : 2 ≤ toks.length) (i : Nat) (hi0 : 0 < i) (hi : i < toks.length)
    (hnum : isBareNumber (toks.getD (i - 1) "") = true)
    (hunit : unit_words.contains (pyLower (toks.getD i "")) = true) :
    ∃ r, (tag env tokens ctx lang).get? i = some r ∧
      r.tags = ["尺寸词"] ∧ r.primary_tag = "尺寸词" ∧
      r.confidence = ⟨95, 100⟩ ∧ r.method = "context" ∧
      r.token = toks.getD i "" := by
  have hdd : dropDotsIsDigit (toks.getD (i - 1) "") = true := by
    rw [isBareNumber] at hnum
    rw [dropDotsIsDigit]
    simp only [Bool.and_eq_true, decide_eq_true_eq, Bool.not_eq_true',
      List.isEmpty_eq_false, List.isEmpty_iff] at hnum ⊢
    tauto
  rw [tag]
  rw [← htoks]
  have hlen : (toks.enum.map fun p =>
      createResult p.2 (getCandidates env p.2 p.1 lang)).length = toks.length := by
    simp
  have hires : i < (toks.enum.map fun p =>
      createResult p.2 (getCandidates env p.2 p.1 lang)).length := by omega
  have hforced := applyContext_forced
    (toks.enum.map fun p => createResult p.2 (getCandidates env p.2 p.1 lang))
    toks (by omega) i hi0 hires hdd hunit
  refine ⟨_, hforced, rfl, rfl, rfl, rfl, ?_⟩
  rw [forceSizeResult]
  dsimp only
  rw [List.getD_eq_getElem?_getD, List.getElem?_map, List.getElem?_enum,
    List.getElem?_eq_getElem hi]
  rw [List.getD_eq_getElem?_getD, List.getElem?_eq_getElem hi]
  simp [createResult_token]

/-- Witness for C7: the concrete token sequence ["10.5", "cm"] with an
empty dictionary environment and language hint "en". -/
theorem numeric_unit_forces_size_witness :
    ∃ r, (tag envEmpty ["10.5", "cm"] none (some "en")).get? 1 = some r ∧
      r.tags = ["尺寸词"] ∧ r.primary_tag = "尺寸词" ∧
      r.confidence = ⟨95, 100⟩ ∧ r.method = "context" ∧
      r.token = (["10.5", "cm"] : List String).getD 1 "" :=
  numeric_unit_forces_size envEmpty ["10.5", "cm"] none (some "en")
    ["10.5", "cm"] (by decide) (by decide) 1 (by decide) (by decide)
    (by decide) (by decide)

/-- Claim C2 (amended): EnhancedTagger.tag returns exactly one
TagResult per token of the token list AFTER the Japanese
compound-merge step, in order (the i-th result's token is the i-th
merged token); when the language hint is not Japanese/unspecified, or
no token contains a Japanese character, that list is the input itself,
so there is exactly one result per input token in input order. -/
theorem tag_one_result_per_merged_token (env : TaggerEnv)
    (tokens : List String) (ctx lang : Option String) :
    (tag env tokens ctx lang).map TagResult.token =
      (if isJapaneseHint lang then mergeJapaneseCompounds env tokens
       else tokens) ∧
    ((isJapaneseHint lang = false ∨ tokens.any hasJapaneseChar = false) →
      (tag env tokens ctx lang).map TagResult.token = tokens) := by
  have hbase : (tag env tokens ctx lang).map TagResult.token =
      (if isJapaneseHint lang then mergeJapaneseCompounds env tokens
       else tokens) := by
    rw [tag]
    rw [applyContext_map_token, List.map_map]
    have hcomp : (TagResult.token ∘ fun p =>
        createResult p.2 (getCandidates env p.2 p.1 lang)) = Prod.snd := by
      funext p
      exact createResult_token p.2 _
    rw [hcomp, List.enum_map_snd]
  refine ⟨hbase, ?_⟩
  intro hcase
  rw [hbase]
  rcases hcase with hlang | hjp
  · rw [if_neg (by simp [hlang])]
  · by_cases hl : isJapaneseHint lang = true
    · rw [if_pos hl, mergeJapaneseCompounds, hjp]
      simp
    · rw [if_neg hl]

/-- Counterexample to C2 as stated: with the Japanese language hint,
the compound merger's dictionary pass merges the three input tokens
腹, 巻, き into the single token 腹巻き, so tag returns one TagResult
for a three-token input - not one per input token. -/
theorem tag_not_one_per_input_counterexample :
    (tag envEmpty ["腹", "巻", "き"] none (some "ja")).length = 1 ∧
    (["腹", "巻", "き"] : List String).length = 3 :=
  ⟨by decide, rfl⟩

/-- Witness for C2 (amended): a non-Japanese hint keeps one result per
input token, in order. -/
theorem tag_one_result_per_merged_token_witness :
    isJapaneseHint (some "en") = false ∧
    (tag envEmpty ["long", "sleeve"] none (some "en")).map TagResult.token =
      ["long", "sleeve"] :=
  ⟨by decide,
   (tag_one_result_per_merged_token envEmpty ["long", "sleeve"] none
     (some "en")).2 (.inl (by decide))⟩

/-- Evaluation at C1's failing input: with "10.5cm" in the brands
dictionary at confidence 0.8 and language hint "en", the single result
has primary tag 尺寸词 (size, 0.95 from the size pattern) and ALSO
carries 品牌词 (brand) as secondary tag: are_tags_compatible sorts the
pair to ("品牌词", "尺寸词"), which is absent from TAG_COMPATIBILITY,
so the lookup defaults to compatible even though the matrix itself
lists ("尺寸词", "品牌词") as incompatible - that entry is
unreachable. -/
theorem size_brand_secondary_emitted :
    (tag envBrand ["10.5cm"] none (some "en")).map TagResult.tags =
      [["尺寸词", "品牌词"]] ∧
    are_tags_compatible "尺寸词" "品牌词" = true ∧
    alookup ("尺寸词", "品牌词") TAG_COMPATIBILITY = some false :=
  ⟨by decide, by decide, by decide⟩

/-- Witness for C6: applying the boundary lemma at the concrete match
of "nike" inside "someone bought a nike shirt" (start 17, end 21):
position 16 holds a space and position 21 a space, so both boundary
conditions hold. -/
theorem latin_word_boundary_witness :
    (17 = 0 ∨ pyIsAsciiAlnum ((("someone bought a nike shirt".data).map
      pyLowerChar).getD 16 ' ') = false) ∧
    ("someone bought a nike shirt".data.length ≤ 21 ∨
      pyIsAsciiAlnum ((("someone bought a nike shirt".data).map
        pyLowerChar).getD 21 ' ') = false) :=
  (latin_word_boundary exNike.latin_trie "someone bought a nike shirt".data
    17).1 "nike".data 21
    (some ⟨"品牌词", ⟨95, 100⟩, SpanType.BRAND⟩) (by decide)

end KT
